import Mathlib

/-!
Shallow embedding of the maxify unit-parsing and configuration core
(src/maxify/units.py, src/maxify/config.py, src/maxify/main.py).

Python strings are modelled as `List Char` (ASCII fragment; the regex
classes `[A-Za-z]`, `\d`, `\s` and the `%H:%M:%S` / `%H:%M` strptime
formats are modelled over ASCII characters, which covers every string the
claims quantify over).  Python `Decimal` values are modelled as exact
rationals `ℚ` (construction from a numeric literal string is exact in
CPython; the additions and multiplications performed here stay far below
the 28-significant-digit default context, so they are exact as well).
Python exceptions become `Except` error values.
-/

namespace Maxify

/-! ## Character classes of the CPython regexes (ASCII fragment) -/

/-- `[A-Za-z]` of `Duration._expr_re` (codes 65-90 and 97-122). -/
def isLetter (c : Char) : Bool :=
  (65 ≤ c.toNat && c.toNat ≤ 90) || (97 ≤ c.toNat && c.toNat ≤ 122)

/-- `\d` of `Duration._expr_re` (ASCII decimal digit, codes 48-57). -/
def isDigit (c : Char) : Bool :=
  48 ≤ c.toNat && c.toNat ≤ 57

/-- `\s` of `Duration._expr_re` (ASCII whitespace: tab, newline,
vertical tab, form feed, carriage return, space). -/
def isSpace (c : Char) : Bool :=
  c.toNat = 32 || c.toNat = 9 || c.toNat = 10 || c.toNat = 11 || c.toNat = 12 || c.toNat = 13

/-- Numeric value of an ASCII digit character. -/
def digitVal (c : Char) : ℕ := c.toNat - 48

/-- The ASCII digit character of `d < 10`. -/
def digitChar (d : ℕ) : Char := Char.ofNat (48 + d)

/-- Value of a string of ASCII digits, most significant first. -/
def natOfDigits (cs : List Char) : ℕ :=
  cs.foldl (fun a c => 10 * a + digitVal c) 0

/-! ## `Duration._try_parse_time_fmt` (units.py:149-166)

`datetime.strptime(s, "%H:%M:%S")` / `datetime.strptime(s, "%H:%M")`:
CPython's `_strptime` matches `%H` with `(2[0-3]|[0-1]\d|\d)`, `%M` with
`([0-5]\d|\d)` and `%S` with `(6[0-1]|[0-5]\d|\d)`, each separated by a
literal `:`, and fails on any unconverted data.  Because the field
patterns consume only digits and the separator is `:`, a string matches
exactly when splitting it on `:` yields two or three fields each of which
is wholly one field pattern.  `datetime.strptime` additionally rejects
the leap seconds 60/61 that the `%S` pattern admits (`ValueError` from
the `datetime` constructor, caught by the same `except`), so the net
seconds field accepts values up to 59 only. -/

/-- Split a string on `:` (every occurrence; fields may be empty). -/
def splitColon : List Char → List (List Char)
  | [] => [[]]
  | c :: rest =>
    if c = ':' then [] :: splitColon rest
    else
      match splitColon rest with
      | [] => [[c]]
      | f :: fs => (c :: f) :: fs

/-- A field matching `2[0-3]|[0-1]\d|\d` in full: one digit, or two digits
with value at most 23. -/
def matchH : List Char → Option ℕ
  | [c] => if isDigit c then some (digitVal c) else none
  | [c₁, c₂] =>
    if isDigit c₁ && isDigit c₂ then
      let v := 10 * digitVal c₁ + digitVal c₂
      if v ≤ 23 then some v else none
    else none
  | _ => none

/-- A field matching `[0-5]\d|\d` in full: one digit, or two digits with
value at most 59. -/
def matchM : List Char → Option ℕ
  | [c] => if isDigit c then some (digitVal c) else none
  | [c₁, c₂] =>
    if isDigit c₁ && isDigit c₂ then
      let v := 10 * digitVal c₁ + digitVal c₂
      if v ≤ 59 then some v else none
    else none
  | _ => none

/-- Seconds field: the strptime pattern `6[0-1]|[0-5]\d|\d` combined with
the `datetime` constructor's rejection of 60/61 leaves one digit, or two
digits with value at most 59. -/
def matchS : List Char → Option ℕ
  | [c] => if isDigit c then some (digitVal c) else none
  | [c₁, c₂] =>
    if isDigit c₁ && isDigit c₂ then
      let v := 10 * digitVal c₁ + digitVal c₂
      if v ≤ 59 then some v else none
    else none
  | _ => none

/-- `Duration._try_parse_time_fmt` (units.py:149-166): try `%H:%M:%S`,
then `%H:%M`; on success return `hour*3600 + minute*60 + second` (a
Python `int`), else `None`.  A string cannot match both formats (they
need a different number of `:`), so trying them in either order is the
same. -/
def tryParseTimeFmt (cs : List Char) : Option ℕ :=
  match splitColon cs with
  | [fh, fm, fs] =>
    match matchH fh, matchM fm, matchS fs with
    | some h, some m, some s => some (h * 3600 + m * 60 + s)
    | _, _, _ => none
  | [fh, fm] =>
    match matchH fh, matchM fm with
    | some h, some m => some (h * 3600 + m * 60)
    | _, _ => none
  | _ => none

/-! ## The compound-expression scan (units.py:107-110, 128-142)

`Duration._expr_re` is
`(?:(?P<unit>[A-Za-z]+)\s*(?P<num>\d+\.?\d*))|(?:(?P<num_alt>\d+\.?\d*)\s*(?P<unit_alt>[A-Za-z]+))`
and `finditer` yields its non-overlapping matches left to right.  The
three character classes are pairwise disjoint and `.` belongs to none of
them, so the greedy sub-matches never need to backtrack: if the greedy
attempt of a branch fails, every shorter choice leaves the next pattern
element facing a character of the class just given back, and fails too.
Each branch is therefore equivalent to the greedy scan implemented
here. -/

/-- One regex match: the text of the `unit`/`unit_alt` group and of the
`num`/`num_alt` group. -/
structure RawMatch where
  unit : List Char
  num : List Char
  deriving DecidableEq, Repr

/-- The `\d+\.?\d*` sub-match at the head of `cs`: the matched text and
the remainder, or `none` if no digit starts `cs`. -/
def numTake (cs : List Char) : Option (List Char × List Char) :=
  if cs.takeWhile isDigit = [] then none
  else
    match cs.dropWhile isDigit with
    | c :: r₂ =>
      if c = '.' then
        some (cs.takeWhile isDigit ++ '.' :: r₂.takeWhile isDigit, r₂.dropWhile isDigit)
      else some (cs.takeWhile isDigit, c :: r₂)
    | [] => some (cs.takeWhile isDigit, [])

/-- One attempt of `_expr_re` at the head of `cs`: the first alternative
(`unit` then `num`), else the second (`num_alt` then `unit_alt`), else
`none`.  On success, returns the groups and the remainder after the
match. -/
def matchAt (cs : List Char) : Option (RawMatch × List Char) :=
  if cs.takeWhile isLetter = [] then
    match numTake cs with
    | some (n, r) =>
      if (r.dropWhile isSpace).takeWhile isLetter = [] then none
      else some (⟨(r.dropWhile isSpace).takeWhile isLetter, n⟩,
                 (r.dropWhile isSpace).dropWhile isLetter)
    | none => none
  else
    match numTake ((cs.dropWhile isLetter).dropWhile isSpace) with
    | some (n, r) => some (⟨cs.takeWhile isLetter, n⟩, r)
    | none => none


/-- Fuel-indexed implementation of the `finditer` scan: at each position
attempt a match; on success emit it and continue after it, otherwise
advance one character.  Any fuel at least the length of the string
computes the scan (each step strictly shrinks the string, see
`scanFuel_eq_of_le`). -/
def scanFuel : ℕ → List Char → List RawMatch
  | 0, _ => []
  | fuel + 1, cs =>
    match matchAt cs with
    | some (m, rest) => m :: scanFuel fuel rest
    | none =>
      match cs with
      | [] => []
      | _ :: t => scanFuel fuel t

/-- Non-overlapping matches of `Duration._expr_re` in `cs`, left to
right, as delivered by `finditer` (units.py:129). -/
def scan (cs : List Char) : List RawMatch :=
  scanFuel cs.length cs

/-! ## `Duration._durations` (units.py:100-105) and the per-match sum -/

/-- Convenience: the character list of a string literal. -/
def w (s : String) : List Char := s.toList

/-- `Duration._durations` (units.py:100-105): synonym sets (modelled as
lists; only membership is used) paired with their number of seconds, in
source order. -/
def durations : List (List (List Char) × ℕ) :=
  [([w "days", w "day", w "d"], 86400),
   ([w "hours", w "hour", w "hrs", w "hr", w "h"], 3600),
   ([w "minutes", w "minute", w "mins", w "min", w "m"], 60),
   ([w "seconds", w "second", w "secs", w "sec", w "s"], 1)]

/-- `found_units = [(u, m) for (u, m) in cls._durations if unit in u]`
followed by `found_units[0]` (units.py:135-139): the multiplier of the
first synonym set containing the unit word, if any. -/
def findMult (unit : List Char) : Option ℕ :=
  (durations.find? (fun p => unit ∈ p.1)).map (·.2)

/-! ## Python `Decimal` values

A (finite) `Decimal` is a coefficient together with a power-of-ten
exponent; `⟨c, e⟩` stands for `c · 10⁻ᵉ` (so `e` is the number of
digits after the decimal point when `e ≥ 0`).  The additions and
multiplications performed by this code are exact: their operands stay
far below the 28-significant-digit default context, so context rounding
never fires, and the result coefficient/exponent follow the exact
IBM-decimal rules modelled here (addition aligns to the larger scale;
multiplication adds scales). -/
structure Dec where
  c : ℤ
  e : ℤ
  deriving DecidableEq, Repr

/-- The rational value of a `Decimal`. -/
def Dec.toRat (d : Dec) : ℚ := (d.c : ℚ) * 10 ^ (-d.e)

/-- `Decimal(n)` for an `int` `n`: exact, scale 0. -/
def Dec.ofInt (z : ℤ) : Dec := ⟨z, 0⟩

/-- Exact `Decimal` addition: align both coefficients to the larger
scale. -/
def Dec.add (a b : Dec) : Dec :=
  ⟨a.c * 10 ^ (max a.e b.e - a.e).toNat + b.c * 10 ^ (max a.e b.e - b.e).toNat,
   max a.e b.e⟩

/-- Exact `Decimal` multiplication: multiply coefficients, add scales.
`Decimal * int` first widens the `int` to `Decimal(n) = ⟨n, 0⟩`. -/
def Dec.mul (a b : Dec) : Dec := ⟨a.c * b.c, a.e + b.e⟩

/-- Python truthiness of a `Decimal`: nonzero. -/
def Dec.truthy (d : Dec) : Bool := d.c ≠ 0

/-- `Decimal(num)` for a string `num` matched by `\d+\.?\d*`
(units.py:140): the coefficient is the concatenated digits, the scale is
the number of fractional digits. -/
def decOfNumStr (cs : List Char) : Dec :=
  match cs.dropWhile isDigit with
  | '.' :: r₂ =>
    ⟨natOfDigits (cs.takeWhile isDigit ++ r₂.takeWhile isDigit),
     ((r₂.takeWhile isDigit).length : ℤ)⟩
  | _ => ⟨natOfDigits (cs.takeWhile isDigit), 0⟩

/-- Errors of the units module: `ParsingError` (units.py:18). -/
inductive PErr where
  | parsingError
  deriving DecidableEq, Repr

instance {ε α : Type} [DecidableEq ε] [DecidableEq α] : DecidableEq (Except ε α) := fun
  | .error e, .error f =>
    if h : e = f then isTrue (by rw [h]) else isFalse (by intro hh; cases hh; exact h rfl)
  | .error _, .ok _ => isFalse (by intro hh; cases hh)
  | .ok _, .error _ => isFalse (by intro hh; cases hh)
  | .ok a, .ok b =>
    if h : a = b then isTrue (by rw [h]) else isFalse (by intro hh; cases hh; exact h rfl)

/-- The accumulation loop of `Duration.parse` (units.py:128-142):
`value` starts at `Decimal(0)`; each match adds `Decimal(num) *
multiplier` of the first synonym set containing its unit word, and an
unknown unit word raises `ParsingError`.  Exact `Decimal` addition is
associative and commutative with `⟨0, 0⟩` as unit, so folding from the
right produces the same `Decimal` as the source's left-to-right `+=`. -/
def sumMatches : List RawMatch → Except PErr Dec
  | [] => .ok ⟨0, 0⟩
  | r :: rest =>
    match findMult r.unit with
    | none => .error .parsingError
    | some mult =>
      (sumMatches rest).map (fun s => ((decOfNumStr r.num).mul (Dec.ofInt mult)).add s)

/-! ## `Duration.parse` (units.py:112-142) -/

/-- A Python value that can be passed to `Duration.parse`: `None`, a
`Decimal`, an `int`, or a `str`. -/
inductive PyIn where
  | none
  | dec (d : Dec)
  | int (z : ℤ)
  | str (s : List Char)
  deriving DecidableEq, Repr

/-- A Python value that `Duration.parse` can return when it does not
return `None`: an `int` (from the clock-format path) or a `Decimal`. -/
inductive PyNum where
  | int (z : ℤ)
  | dec (d : Dec)
  deriving DecidableEq, Repr

/-- The numeric value of a Python `int` or `Decimal` (Python `==`
compares them numerically). -/
def PyNum.val : PyNum → ℚ
  | .int z => (z : ℚ)
  | .dec d => d.toRat

/-- The numeric value of a `Duration.parse` result. -/
def numValOpt : Option PyNum → Option ℚ
  | Option.none => Option.none
  | some n => some n.val

/-- `Duration.parse` (units.py:112-142).  `None` passes through; a
`Decimal` is returned unchanged; an `int` is widened to `Decimal`; a
string is first tried as a clock format (the result, a Python `int`, is
returned only if truthy, i.e. nonzero), then scanned for compound
duration expressions, an unknown unit word raising `ParsingError`. -/
def Duration.parse : PyIn → Except PErr (Option PyNum)
  | .none => .ok Option.none
  | .dec d => .ok (some (.dec d))
  | .int z => .ok (some (.dec (Dec.ofInt z)))
  | .str cs =>
    match tryParseTimeFmt cs with
    | some v =>
      if v ≠ 0 then .ok (some (.int (v : ℤ)))
      else (sumMatches (scan cs)).map (fun s => some (.dec s))
    | Option.none => (sumMatches (scan cs)).map (fun s => some (.dec s))

/-- Observation of `Duration.parse`: the numeric value it returns, or
`none` if it raises or returns `None`. -/
def parseVal (x : PyIn) : Option ℚ :=
  match Duration.parse x with
  | .ok r => numValOpt r
  | .error _ => Option.none

/-! ## `Int.parse` and `Float.parse` (units.py:65-92)

`Int.parse` is `int(s)` (`ValueError` becomes `ParsingError`);
`Float.parse` is `Decimal(s)` (`InvalidOperation` becomes
`ParsingError`).  Both builtins are modelled for the era of the source
(CPython 3.4): surrounding whitespace is stripped, an optional sign is
followed by plain base-10 digits (`int`), respectively by a finite
numeric literal `digits [. digits] [E [sign] digits]` with at least one
coefficient digit (`Decimal`; the special values `Infinity`/`NaN` are
outside this model's value domain and map to `none`). -/

/-- Strip leading and trailing ASCII whitespace, as `int(str)` /
`str.strip()` do. -/
def stripWs (cs : List Char) : List Char :=
  ((cs.dropWhile isSpace).reverse.dropWhile isSpace).reverse

/-- A nonempty run of digits making up the whole list. -/
def allDigitsNum : List Char → Option ℕ
  | [] => Option.none
  | cs => if cs.all isDigit then some (natOfDigits cs) else Option.none

/-- `int(s)` on a string (CPython 3.4): stripped, optional sign,
nonempty digits. -/
def pyIntParse (cs : List Char) : Option ℤ :=
  match stripWs cs with
  | '+' :: rest => (allDigitsNum rest).map (fun n => (n : ℤ))
  | '-' :: rest => (allDigitsNum rest).map (fun n => -(n : ℤ))
  | rest => (allDigitsNum rest).map (fun n => (n : ℤ))

/-- The optional exponent clause `[eE][+-]?digits` at the end of a
`Decimal` literal: the exponent value, or `none` if the remainder is
not a wholly valid (possibly absent) exponent clause. -/
def decExpPart : List Char → Option ℤ
  | [] => some 0
  | c :: rest =>
    if c = 'e' ∨ c = 'E' then
      match rest with
      | '+' :: ds => (allDigitsNum ds).map (fun n => (n : ℤ))
      | '-' :: ds => (allDigitsNum ds).map (fun n => -(n : ℤ))
      | ds => (allDigitsNum ds).map (fun n => (n : ℤ))
    else Option.none

/-- The unsigned body of a `Decimal` literal: `digits [. digits] [exp]`
with at least one digit in the coefficient. -/
def decBody (cs : List Char) : Option Dec :=
  match cs.dropWhile isDigit with
  | '.' :: r₂ =>
    if cs.takeWhile isDigit = [] ∧ r₂.takeWhile isDigit = [] then Option.none
    else
      (decExpPart (r₂.dropWhile isDigit)).map (fun ex =>
        ⟨natOfDigits (cs.takeWhile isDigit ++ r₂.takeWhile isDigit),
         ((r₂.takeWhile isDigit).length : ℤ) - ex⟩)
  | r₁ =>
    if cs.takeWhile isDigit = [] then Option.none
    else (decExpPart r₁).map (fun ex => ⟨natOfDigits (cs.takeWhile isDigit), -ex⟩)

/-- `Decimal(s)` on a string for finite values (CPython 3.4): stripped,
optional sign, then a numeric body. -/
def pyDecParse (cs : List Char) : Option Dec :=
  match stripWs cs with
  | '+' :: rest => decBody rest
  | '-' :: rest => (decBody rest).map (fun d => ⟨-d.c, d.e⟩)
  | rest => decBody rest

/-! ## `determine_unit_and_value` (units.py:169-198) -/

/-- The closed set of unit types, in the priority order of the module
level list `units = [Duration, Int, Float]` (units.py:170-174). -/
inductive UnitKind where
  | duration
  | int
  | float
  deriving DecidableEq, Repr

/-- Python truthiness of a parsed value: an `int` is truthy iff nonzero,
a `Decimal` iff its coefficient is nonzero. -/
def pyTruthy : PyNum → Bool
  | .int z => z ≠ 0
  | .dec d => d.truthy

/-- Third iteration of the loop in `determine_unit_and_value`:
`Float.parse`, i.e. `Decimal(s)`; a parse failure is caught and, the
list being exhausted, `(None, None)` is returned, as it also is for a
falsy (zero) value. -/
def detFloat (cs : List Char) : Option (UnitKind × PyNum) :=
  match pyDecParse cs with
  | some d => if d.truthy then some (.float, .dec d) else Option.none
  | Option.none => Option.none

/-- Second iteration: `Int.parse`, i.e. `int(s)`; failure or a falsy
value falls through to `Float`. -/
def detInt (cs : List Char) : Option (UnitKind × PyNum) :=
  match pyIntParse cs with
  | some z => if z ≠ 0 then some (.int, .int z) else detFloat cs
  | Option.none => detFloat cs

/-- `determine_unit_and_value` (units.py:177-198): try `Duration`,
`Int`, `Float` in the order of the `units` list, returning the first
`(unit_type, value)` whose parse succeeds with a truthy value;
`ParsingError` is swallowed and the result is `(None, None)` (here
`none`) when the list is exhausted. -/
def determine_unit_and_value (cs : List Char) : Option (UnitKind × PyNum) :=
  match Duration.parse (.str cs) with
  | .ok (some n) => if pyTruthy n then some (.duration, n) else detInt cs
  | .ok Option.none => detInt cs
  | .error _ => detInt cs

/-! ## `maxify.config` (config.py): `Project`, `Metric`

`ConfigError` (config.py:11) and the `KeyError` a Python dict raises on
a missing key. -/

inductive CfgErr where
  | configError
  deriving DecidableEq, Repr

inductive PyErr where
  | keyError
  deriving DecidableEq, Repr

/-- The `units` argument given to `Metric` (config.py:56-66): a class
that subclasses `Unit`, some other class, or not a class at all;
`inspect.isclass` and `issubclass(units, Unit)` accept exactly the
first. -/
inductive UnitsArg where
  | unitCls (k : UnitKind)
  | otherCls
  | nonClass
  deriving DecidableEq, Repr

/-- A constructed `Metric` (config.py:55-72).  The optional `range` and
`default_value` hold the integers the configuration files use
(conf.py, test/conftest.py). -/
structure Metric where
  name : List Char
  units : UnitKind
  desc : Option (List Char)
  range : Option (List ℤ)
  default_value : Option ℤ
  deriving DecidableEq, Repr

/-- `Metric.__init__` (config.py:56-72): raise `ConfigError` unless
`units` is a class subclassing `Unit`, else record the fields. -/
def Metric.make (name : List Char) (units : UnitsArg) (desc : Option (List Char))
    (range : Option (List ℤ)) (default_value : Option ℤ) : Except CfgErr Metric :=
  match units with
  | .unitCls k => .ok ⟨name, k, desc, range, default_value⟩
  | _ => .error .configError

/-- A `Project` (config.py:24-52).  `metrics` models the Python dict as
an association list in insertion order; every state reachable through
`add_metric` has pairwise distinct keys, so the first-hit lookup below
agrees with dict lookup. -/
structure Project where
  name : List Char
  desc : List Char
  metrics : List (List Char × Metric)
  deriving DecidableEq, Repr

/-- Dict lookup: the value stored under a key. -/
def lookupMetric : List (List Char × Metric) → List Char → Option Metric
  | [], _ => Option.none
  | (k, m) :: rest, n => if k = n then some m else lookupMetric rest n

/-- `Project.add_metric` (config.py:35-49): `if name in self.metrics:
raise ConfigError(...)`, else construct the `Metric` (which may itself
raise `ConfigError`) and store it under `name`. -/
def Project.add_metric (p : Project) (name : List Char) (units : UnitsArg)
    (desc : Option (List Char)) (range : Option (List ℤ)) (default_value : Option ℤ) :
    Except CfgErr Project :=
  if (lookupMetric p.metrics name).isSome then .error .configError
  else (Metric.make name units desc range default_value).map
    (fun m => ⟨p.name, p.desc, p.metrics ++ [(name, m)]⟩)

/-- `Project.metric` (config.py:51-52): `return self.metrics[name]` —
dict subscription, which raises `KeyError` when `name` is not a key. -/
def Project.metric (p : Project) (name : List Char) : Except PyErr Metric :=
  match lookupMetric p.metrics name with
  | some m => .ok m
  | Option.none => .error .keyError

/-! ## `Metric.validate` and `Project.update_task` (spec-modelled)

The model layer (`maxify.model`, `maxify.repo`) that `main.py` and
`test/conftest.py` import is not under src/. -/

inductive VErr where
  | validationError
  deriving DecidableEq, Repr

/-- Numeric equality (Python `==`) between a parsed value and an integer
from a metric's value range. -/
def pyNumEqInt (v : PyNum) (k : ℤ) : Bool :=
  match v with
  | .int z => z = k
  | .dec d =>
    if 0 ≤ d.e then d.c = k * 10 ^ d.e.toNat
    else d.c * 10 ^ (-d.e).toNat = k

/-- Modelled from the spec: `Metric.validate` is absent from
src/maxify/config.py (it lives in the missing model layer).  Per spec
section 4.6 and section 8, if the value range is set, fail with
`ValidationError` unless the value is a member (Python `in`, which
compares numerically); otherwise accept the value unchanged. -/
def Metric.validate (m : Metric) (v : PyNum) : Except VErr PyNum :=
  match m.range with
  | Option.none => .ok v
  | some r => if r.any (fun k => pyNumEqInt v k) then .ok v else .error .validationError

/-! ## `MaxifyCmd._update_task` (main.py:138-158) -/

/-- A recorded data point: a metric name and the validated canonical
value. -/
structure DataPoint where
  metric : List Char
  value : PyNum
  deriving DecidableEq, Repr

/-- The failure modes of a batch task update: an uncaught `KeyError`
from metric resolution, a `ParsingError` caught in `_update_task`
(main.py:148-152), or a `ValidationError` from the model layer. -/
inductive UpdErr where
  | keyError
  | parsingError
  | validationError
  deriving DecidableEq, Repr

/-- `metric.units.parse(value_str)` (main.py:149): dispatch to the
parser of the metric's unit class.  (`Duration.parse` on a `str` never
returns `None`; the dead arm returns `Decimal(0)`.) -/
def unitParse (k : UnitKind) (cs : List Char) : Except PErr PyNum :=
  match k with
  | .duration =>
    match Duration.parse (.str cs) with
    | .ok (some n) => .ok n
    | .ok Option.none => .ok (.dec ⟨0, 0⟩)
    | .error e => .error e
  | .int =>
    match pyIntParse cs with
    | some z => .ok (.int z)
    | Option.none => .error .parsingError
  | .float =>
    match pyDecParse cs with
    | some d => .ok (.dec d)
    | Option.none => .error .parsingError

/-- `MaxifyCmd._get_metric` (main.py:160-167).  The first lookup raises
`KeyError` for a missing name (see `Project.metric`), so the falsy
check and the underscore/title-case fallback of main.py:163-167 are
unreachable: a present name yields its (always truthy) `Metric`, a
missing name propagates `KeyError`. -/
def MaxifyCmd_get_metric (p : Project) (name : List Char) : Except PyErr Metric :=
  p.metric name

/-- The resolve-and-parse loop of `MaxifyCmd._update_task`
(main.py:139-154): for each `(metric_name, value_str)` pair resolve the
metric (an unknown name aborts the batch) and parse the raw value with
the metric's unit class (a `ParsingError` aborts the batch), collecting
`(metric, value)` pairs in order. -/
def collectMetrics (p : Project) :
    List (List Char × List Char) → Except UpdErr (List (Metric × PyNum))
  | [] => .ok []
  | (mname, vstr) :: rest =>
    match MaxifyCmd_get_metric p mname with
    | .error _ => .error .keyError
    | .ok metric =>
      match unitParse metric.units vstr with
      | .error _ => .error .parsingError
      | .ok v => (collectMetrics p rest).map (fun l => (metric, v) :: l)

/-- Modelled from the spec: validation of the collected batch, spec
section 4.7 — each pair is validated via `Metric.validate`; the first
failure rejects the batch. -/
def validateAll : List (Metric × PyNum) → Except UpdErr (List DataPoint)
  | [] => .ok []
  | (m, v) :: rest =>
    match m.validate v with
    | .error _ => .error .validationError
    | .ok v' => (validateAll rest).map (fun l => ⟨m.name, v'⟩ :: l)

/-- Modelled from the spec: `Project.update_task` lives in the missing
model layer; per spec sections 4.7 and 5 it validates every pair and,
only if all succeed, appends the resulting data points to the task,
atomically. -/
def Project.update_task (task : List DataPoint) (mvs : List (Metric × PyNum)) :
    Except UpdErr (List DataPoint) :=
  match validateAll mvs with
  | .error e => .error e
  | .ok dps => .ok (task ++ dps)

/-- `MaxifyCmd._update_task` (main.py:138-158) acting on a task's data
points: collect and parse all pairs, then hand the batch to the model
layer; any failure leaves the task unchanged (`ParsingError` by the
early `return`, `KeyError`/`ValidationError` by exception propagation
before any mutation), success appends the new data points and returns
`True`. -/
def MaxifyCmd_update_task (p : Project) (task : List DataPoint)
    (pairs : List (List Char × List Char)) : List DataPoint × Bool :=
  match collectMetrics p pairs with
  | .error _ => (task, false)
  | .ok mvs =>
    match Project.update_task task mvs with
    | .error _ => (task, false)
    | .ok task' => (task', true)

/-! ## Python `str()` of the values `Duration.parse` returns -/

/-- Decimal digits of a natural number, most significant first (fuel
form of repeated division by 10). -/
def natDigitsAux : ℕ → ℕ → List Char
  | 0, _ => []
  | fuel + 1, n =>
    if n < 10 then [digitChar n]
    else natDigitsAux fuel (n / 10) ++ [digitChar (n % 10)]

/-- Decimal digits of a natural number. -/
def natDigits (n : ℕ) : List Char := natDigitsAux (n + 1) n

/-- Modelled from CPython `str()` on the values `Duration.parse`
returns: an `int` prints its decimal digits (with sign); a `Decimal`
with scale 0 prints the plain digits of its coefficient (CPython
`Decimal.__str__` uses no decimal point or scientific notation when the
exponent is 0).  Other `Decimal` shapes are not needed here and are
left unmodelled. -/
def pyStr : PyNum → Option (List Char)
  | .int z => some (if z < 0 then '-' :: natDigits (-z).toNat else natDigits z.toNat)
  | .dec d =>
    if d.e = 0 then
      some (if d.c < 0 then '-' :: natDigits (-d.c).toNat else natDigits d.c.toNat)
    else Option.none

/-- Feeding a `Duration.parse` result back into `Duration.parse` (the
Python value `None`, `int` or `Decimal` it returned). -/
def reinput : Option PyNum → PyIn
  | Option.none => .none
  | some (.int z) => .int z
  | some (.dec d) => .dec d

/-! ## The input families the claims quantify over

These definitions only render the families of strings named by the
claims (clock strings `HH:MM:SS`/`HH:MM`, compound duration
expressions); they are not part of the program. -/

/-- One clock field: the value `v`, either zero-padded to two digits or
written plainly (one digit for `v < 10`, two otherwise). -/
def clockField (pad : Bool) (v : ℕ) : List Char :=
  if v < 10 then (if pad then ['0', digitChar v] else [digitChar v])
  else [digitChar (v / 10), digitChar (v % 10)]

/-- A clock string `HH:MM:SS`, each field zero-padded or not. -/
def renderClock3 (bh bm bs : Bool) (h m s : ℕ) : List Char :=
  clockField bh h ++ ':' :: clockField bm m ++ ':' :: clockField bs s

/-- A clock string `HH:MM`, each field zero-padded or not. -/
def renderClock2 (bh bm : Bool) (h m : ℕ) : List Char :=
  clockField bh h ++ ':' :: clockField bm m

/-- A numeral with an optional fractional part: integer digits, and
optionally a decimal point followed by (possibly zero) fractional
digits. -/
structure Numeral where
  ip : List Char
  fr : Option (List Char)
  deriving DecidableEq, Repr

/-- The text of a numeral. -/
def Numeral.render (n : Numeral) : List Char :=
  n.ip ++ (match n.fr with | some ds => '.' :: ds | Option.none => [])

/-- Well-formedness of a numeral: a nonempty run of digits, the
fractional digits (if any) all digits. -/
def Numeral.wfB (n : Numeral) : Bool :=
  !n.ip.isEmpty && n.ip.all isDigit &&
    (match n.fr with | some ds => ds.all isDigit | Option.none => true)

/-- The rational value of a numeral. -/
def Numeral.val (n : Numeral) : ℚ :=
  (natOfDigits n.ip : ℚ) +
    (match n.fr with
     | some ds => (natOfDigits ds : ℚ) / 10 ^ ds.length
     | Option.none => 0)

/-- One token of a compound duration expression: a unit word and a
numeral, in either order, with optional whitespace between them. -/
structure Token where
  unitFirst : Bool
  unit : List Char
  sp : List Char
  num : Numeral
  deriving DecidableEq, Repr

/-- The text of a token. -/
def Token.render (t : Token) : List Char :=
  if t.unitFirst then t.unit ++ t.sp ++ t.num.render
  else t.num.render ++ t.sp ++ t.unit

/-- All seventeen unit words of the four synonym sets. -/
def allUnitWords : List (List Char) :=
  [w "days", w "day", w "d",
   w "hours", w "hour", w "hrs", w "hr", w "h",
   w "minutes", w "minute", w "mins", w "min", w "m",
   w "seconds", w "second", w "secs", w "sec", w "s"]

/-- Well-formedness of a token: the unit word is drawn (case
sensitively) from the synonym sets, the inner separator is whitespace,
and the numeral is well formed. -/
def Token.wfB (t : Token) : Bool :=
  decide (t.unit ∈ allUnitWords) && t.sp.all isSpace && t.num.wfB

/-- The value a token contributes: its numeral times its synonym set's
multiplier. -/
def Token.val (t : Token) : ℚ :=
  t.num.val * ((findMult t.unit).getD 0 : ℚ)

/-- A compound expression: a first token, then further tokens each
preceded by a whitespace separator. -/
def renderExpr (t₀ : Token) (rest : List (List Char × Token)) : List Char :=
  t₀.render ++ (rest.map (fun pt => pt.1 ++ pt.2.render)).flatten

/-- Well-formedness of a compound expression: every token well formed,
every separator nonempty whitespace. -/
def exprWF (t₀ : Token) (rest : List (List Char × Token)) : Prop :=
  t₀.wfB = true ∧ ∀ pt ∈ rest, (pt.1 ≠ [] ∧ pt.1.all isSpace = true) ∧ pt.2.wfB = true

/-- The claimed value of a compound expression: the sum over its tokens
of numeral times multiplier. -/
def exprVal (t₀ : Token) (rest : List (List Char × Token)) : ℚ :=
  t₀.val + (rest.map (fun pt => pt.2.val)).sum

/-! ## Observations for the unit-inference claim -/

/-- Outcome of the `Duration` iteration of `determine_unit_and_value`:
the parsed value if parsing succeeded with a truthy value. -/
def durAttempt (cs : List Char) : Option PyNum :=
  match Duration.parse (.str cs) with
  | .ok (some n) => if pyTruthy n then some n else Option.none
  | _ => Option.none

/-- Outcome of the `Int` iteration: the parsed value if `int(s)`
succeeded with a nonzero value. -/
def intAttempt (cs : List Char) : Option ℤ :=
  match pyIntParse cs with
  | some z => if z ≠ 0 then some z else Option.none
  | Option.none => Option.none

/-- Outcome of the `Float` iteration: the parsed value if `Decimal(s)`
succeeded with a truthy value. -/
def floatAttempt (cs : List Char) : Option Dec :=
  match pyDecParse cs with
  | some d => if d.truthy then some d else Option.none
  | Option.none => Option.none

/-- A list of characters that can follow a token without extending any
of its greedy sub-matches: empty, or starting with whitespace. -/
def boundary (l : List Char) : Prop :=
  l = [] ∨ ∃ c t, l = c :: t ∧ isSpace c = true

/-! # Theorems

Supporting lemmas first, then one theorem (with witness or
counterexample where required) per claim. -/

theorem length_takeWhile_add_dropWhile (p : Char → Bool) (l : List Char) :
    (l.takeWhile p).length + (l.dropWhile p).length = l.length := by
  conv_rhs => rw [← List.takeWhile_append_dropWhile (p := p) (l := l)]
  rw [List.length_append]

theorem numTake_length {cs n r} (h : numTake cs = some (n, r)) :
    r.length < cs.length := by
  unfold numTake at h
  split at h
  · exact absurd h (by simp)
  · next hd =>
    have h₁ : (cs.dropWhile isDigit).length + 1 ≤ cs.length := by
      have := length_takeWhile_add_dropWhile isDigit cs
      have hne : 0 < (cs.takeWhile isDigit).length := List.length_pos.mpr hd
      omega
    split at h
    · next c r₂ heq =>
      split at h
      · simp only [Option.some.injEq, Prod.mk.injEq] at h
        rcases h with ⟨-, h⟩
        subst h
        have h₃ : (r₂.dropWhile isDigit).length ≤ r₂.length :=
          (List.dropWhile_sublist _).length_le
        rw [heq] at h₁
        simp only [List.length_cons] at h₁
        omega
      · simp only [Option.some.injEq, Prod.mk.injEq] at h
        rcases h with ⟨-, h⟩
        subst h
        rw [heq] at h₁
        simp only [List.length_cons] at h₁ ⊢
        omega
    · next heq =>
      simp only [Option.some.injEq, Prod.mk.injEq] at h
      rcases h with ⟨-, h⟩
      subst h
      simp only [List.length_nil]
      omega

theorem matchAt_length {cs m r} (h : matchAt cs = some (m, r)) :
    r.length < cs.length := by
  unfold matchAt at h
  split at h
  · next hL =>
    split at h
    · next n r₁ heq =>
      split at h
      · exact absurd h (by simp)
      · next hU =>
        simp only [Option.some.injEq, Prod.mk.injEq] at h
        rcases h with ⟨-, h⟩
        subst h
        have h₃ := numTake_length heq
        have h₄ : ((r₁.dropWhile isSpace).dropWhile isLetter).length ≤ r₁.length := by
          calc ((r₁.dropWhile isSpace).dropWhile isLetter).length
              ≤ (r₁.dropWhile isSpace).length := (List.dropWhile_sublist _).length_le
            _ ≤ r₁.length := (List.dropWhile_sublist _).length_le
        omega
    · exact absurd h (by simp)
  · next hL =>
    split at h
    · next n r₁ heq =>
      simp only [Option.some.injEq, Prod.mk.injEq] at h
      rcases h with ⟨-, h⟩
      subst h
      have h₃ := numTake_length heq
      have h₅ : ((cs.dropWhile isLetter).dropWhile isSpace).length ≤
          (cs.dropWhile isLetter).length :=
        (List.dropWhile_sublist _).length_le
      have h₆ : (cs.dropWhile isLetter).length + 1 ≤ cs.length := by
        have := length_takeWhile_add_dropWhile isLetter cs
        have hne : 0 < (cs.takeWhile isLetter).length := List.length_pos.mpr hL
        omega
      omega
    · exact absurd h (by simp)

theorem scanFuel_eq_of_le :
    ∀ n m (cs : List Char), cs.length ≤ n → cs.length ≤ m →
      scanFuel n cs = scanFuel m cs := by
  intro n
  induction n with
  | zero =>
    intro m cs hn hm
    have : cs = [] := List.length_eq_zero.mp (Nat.le_zero.mp hn)
    subst this
    cases m with
    | zero => rfl
    | succ m => simp [scanFuel, matchAt, numTake]
  | succ n ih =>
    intro m cs hn hm
    cases cs with
    | nil =>
      cases m with
      | zero => simp [scanFuel, matchAt, numTake]
      | succ m => simp [scanFuel, matchAt, numTake]
    | cons c t =>
      cases m with
      | zero => simp at hm
      | succ m =>
        simp only [scanFuel]
        rcases h : matchAt (c :: t) with - | ⟨mm, rest⟩
        · simp only
          have hlen : t.length ≤ n := by simp at hn; omega
          have hlen' : t.length ≤ m := by simp at hm; omega
          exact ih m t hlen hlen'
        · simp only
          have hr := matchAt_length h
          have hlen : rest.length ≤ n := by simp at hn hr; omega
          have hlen' : rest.length ≤ m := by simp at hm hr; omega
          rw [ih m rest hlen hlen']

theorem scan_nil : scan [] = [] := rfl

theorem scan_cons_match {cs m rest} (h : matchAt cs = some (m, rest)) :
    scan cs = m :: scan rest := by
  cases cs with
  | nil => simp [matchAt, numTake] at h
  | cons c t =>
    have hlen := matchAt_length h
    simp only [List.length_cons] at hlen
    unfold scan
    simp only [List.length_cons, scanFuel, h]
    rw [scanFuel_eq_of_le t.length rest.length rest (by omega) (Nat.le_refl _)]

theorem scan_cons_skip {c : Char} {t : List Char} (h : matchAt (c :: t) = none) :
    scan (c :: t) = scan t := by
  unfold scan
  simp only [List.length_cons, scanFuel, h]

theorem Dec.toRat_add (a b : Dec) : (a.add b).toRat = a.toRat + b.toRat := by
  unfold Dec.add Dec.toRat
  have h10 : (10 : ℚ) ≠ 0 := by norm_num
  have ha : ((max a.e b.e - a.e).toNat : ℤ) = max a.e b.e - a.e := by
    rw [Int.toNat_of_nonneg]; omega
  have hb : ((max a.e b.e - b.e).toNat : ℤ) = max a.e b.e - b.e := by
    rw [Int.toNat_of_nonneg]; omega
  push_cast
  rw [← zpow_natCast (10 : ℚ) (max a.e b.e - a.e).toNat,
      ← zpow_natCast (10 : ℚ) (max a.e b.e - b.e).toNat, ha, hb]
  rw [add_mul]
  rw [mul_assoc, mul_assoc, ← zpow_add₀ h10, ← zpow_add₀ h10]
  ring_nf

theorem Dec.toRat_mul (a b : Dec) : (a.mul b).toRat = a.toRat * b.toRat := by
  unfold Dec.mul Dec.toRat
  have h10 : (10 : ℚ) ≠ 0 := by norm_num
  push_cast
  rw [neg_add, zpow_add₀ h10]
  ring

theorem Dec.toRat_ofInt (z : ℤ) : (Dec.ofInt z).toRat = (z : ℚ) := by
  unfold Dec.ofInt Dec.toRat
  norm_num

/-! ### Character-class facts -/

theorem space_not_digit {c : Char} (h : isSpace c = true) : isDigit c = false := by
  simp only [isSpace, Bool.or_eq_true, decide_eq_true_eq] at h
  simp only [isDigit, Bool.and_eq_true, decide_eq_true_eq, Bool.and_eq_false_iff,
    decide_eq_false_iff_not]
  omega

theorem space_not_letter {c : Char} (h : isSpace c = true) : isLetter c = false := by
  simp only [isSpace, Bool.or_eq_true, decide_eq_true_eq] at h
  simp only [isLetter, Bool.or_eq_false_iff, Bool.and_eq_false_iff,
    decide_eq_false_iff_not]
  omega

theorem space_ne_dot {c : Char} (h : isSpace c = true) : c ≠ '.' := by
  intro hc
  subst hc
  exact absurd h (by decide)

theorem space_ne_colon {c : Char} (h : isSpace c = true) : c ≠ ':' := by
  intro hc
  subst hc
  exact absurd h (by decide)

theorem digit_not_letter {c : Char} (h : isDigit c = true) : isLetter c = false := by
  simp only [isDigit, Bool.and_eq_true, decide_eq_true_eq] at h
  simp only [isLetter, Bool.or_eq_false_iff, Bool.and_eq_false_iff,
    decide_eq_false_iff_not]
  omega

theorem digit_not_space {c : Char} (h : isDigit c = true) : isSpace c = false := by
  simp only [isDigit, Bool.and_eq_true, decide_eq_true_eq] at h
  simp only [isSpace, Bool.or_eq_false_iff, decide_eq_false_iff_not]
  omega

theorem digit_ne_dot {c : Char} (h : isDigit c = true) : c ≠ '.' := by
  intro hc
  subst hc
  exact absurd h (by decide)

theorem digit_ne_colon {c : Char} (h : isDigit c = true) : c ≠ ':' := by
  intro hc
  subst hc
  exact absurd h (by decide)

theorem letter_not_digit {c : Char} (h : isLetter c = true) : isDigit c = false := by
  simp only [isLetter, Bool.or_eq_true, Bool.and_eq_true, decide_eq_true_eq] at h
  simp only [isDigit, Bool.and_eq_false_iff, decide_eq_false_iff_not]
  omega

theorem letter_not_space {c : Char} (h : isLetter c = true) : isSpace c = false := by
  simp only [isLetter, Bool.or_eq_true, Bool.and_eq_true, decide_eq_true_eq] at h
  simp only [isSpace, Bool.or_eq_false_iff, decide_eq_false_iff_not]
  omega

theorem letter_ne_dot {c : Char} (h : isLetter c = true) : c ≠ '.' := by
  intro hc
  subst hc
  exact absurd h (by decide)

theorem letter_ne_colon {c : Char} (h : isLetter c = true) : c ≠ ':' := by
  intro hc
  subst hc
  exact absurd h (by decide)

theorem digitChar_isDigit {d : ℕ} (h : d < 10) : isDigit (digitChar d) = true := by
  interval_cases d <;> decide

theorem digitVal_digitChar {d : ℕ} (h : d < 10) : digitVal (digitChar d) = d := by
  interval_cases d <;> decide

theorem digitChar_not_letter {d : ℕ} (h : d < 10) : isLetter (digitChar d) = false := by
  interval_cases d <;> decide

theorem digitChar_ne_colon {d : ℕ} (h : d < 10) : digitChar d ≠ ':' := by
  interval_cases d <;> decide

/-! ### takeWhile / dropWhile helpers -/

theorem takeWhile_append_all {p : Char → Bool} {xs : List Char} (ys : List Char)
    (h : xs.all p = true) :
    (xs ++ ys).takeWhile p = xs ++ ys.takeWhile p := by
  induction xs with
  | nil => simp
  | cons a t ih =>
    simp only [List.all_cons, Bool.and_eq_true] at h
    simp [List.takeWhile_cons, h.1, ih h.2]

theorem dropWhile_append_all {p : Char → Bool} {xs : List Char} (ys : List Char)
    (h : xs.all p = true) :
    (xs ++ ys).dropWhile p = ys.dropWhile p := by
  induction xs with
  | nil => simp
  | cons a t ih =>
    simp only [List.all_cons, Bool.and_eq_true] at h
    simp [List.dropWhile_cons, h.1, ih h.2]

theorem takeWhile_cons_false {p : Char → Bool} {c : Char} (t : List Char)
    (h : p c = false) : (c :: t).takeWhile p = [] := by
  simp [List.takeWhile_cons, h]

theorem dropWhile_cons_false {p : Char → Bool} {c : Char} (t : List Char)
    (h : p c = false) : (c :: t).dropWhile p = c :: t := by
  simp [List.dropWhile_cons, h]

theorem takeWhile_all_false {p : Char → Bool} {l : List Char}
    (h : ∀ c ∈ l, p c = false) : l.takeWhile p = [] := by
  cases l with
  | nil => rfl
  | cons c t => exact takeWhile_cons_false t (h c (by simp))

/-! ### splitColon facts -/

theorem splitColon_no_colon {cs : List Char} (h : ∀ c ∈ cs, c ≠ ':') :
    splitColon cs = [cs] := by
  induction cs with
  | nil => rfl
  | cons c t ih =>
    have hc : c ≠ ':' := h c (by simp)
    have ht := ih (fun c hc => h c (by simp [hc]))
    simp [splitColon, hc, ht]

theorem splitColon_append_colon {a : List Char} (b : List Char)
    (h : ∀ c ∈ a, c ≠ ':') :
    splitColon (a ++ ':' :: b) = a :: splitColon b := by
  induction a with
  | nil => simp [splitColon]
  | cons c t ih =>
    have hc : c ≠ ':' := h c (by simp)
    have ht := ih (fun c hc => h c (by simp [hc]))
    simp only [List.cons_append, splitColon, hc, if_false, List.append_eq, ht]

theorem tryParseTimeFmt_no_colon {cs : List Char} (h : ∀ c ∈ cs, c ≠ ':') :
    tryParseTimeFmt cs = Option.none := by
  unfold tryParseTimeFmt
  rw [splitColon_no_colon h]

/-! ### The dict lookup over appended association lists -/

theorem lookupMetric_append (l₁ l₂ : List (List Char × Metric)) (n : List Char) :
    lookupMetric (l₁ ++ l₂) n =
      match lookupMetric l₁ n with
      | some m => some m
      | Option.none => lookupMetric l₂ n := by
  induction l₁ with
  | nil => simp [lookupMetric]
  | cons p t ih =>
    by_cases hp : p.1 = n
    · simp [lookupMetric, hp]
    · simp [lookupMetric, hp, ih]

/-! ### Claim C9 -/

/-- C9: `Duration.parse(None)` returns `None`, and `Duration.parse("")`
does not raise and returns zero (`Decimal(0)`, of rational value 0). -/
theorem c9_none_and_empty :
    Duration.parse .none = .ok Option.none ∧
    Duration.parse (.str []) = .ok (some (.dec ⟨0, 0⟩)) ∧
    numValOpt (some (.dec ⟨0, 0⟩)) = some 0 := by
  refine ⟨rfl, by decide, ?_⟩
  simp [numValOpt, PyNum.val, Dec.toRat]

/-! ### Claim C10 -/

/-- C10: `Duration.parse` passes a `Decimal` through unchanged and
widens an `int` `n` to `Decimal(n)` (of the same numeric value), in
both cases without error, including negative values: non-negativity is
not enforced on these pass-through inputs. -/
theorem c10_passthrough :
    (∀ d : Dec, Duration.parse (.dec d) = .ok (some (.dec d))) ∧
    (∀ z : ℤ, Duration.parse (.int z) = .ok (some (.dec (Dec.ofInt z))) ∧
      numValOpt (some (.dec (Dec.ofInt z))) = some (z : ℚ)) ∧
    Duration.parse (.dec ⟨-5, 0⟩) = .ok (some (.dec ⟨-5, 0⟩)) ∧
    Duration.parse (.int (-3)) = .ok (some (.dec ⟨-3, 0⟩)) := by
  refine ⟨fun d => rfl, fun z => ⟨rfl, ?_⟩, by decide, by decide⟩
  simp [numValOpt, PyNum.val, Dec.toRat_ofInt]

/-! ### Claim C3 -/

/-- C3 counterexample: re-serialization through `str()` breaks
idempotence.  `Duration.parse("1:00")` succeeds with the `int` 3600,
`str(3600)` is `"3600"`, but `Duration.parse("3600")` is `Decimal(0)`:
a bare numeral has no unit word and no colon, so the scan matches
nothing and the accumulated value stays 0 ≠ 3600. -/
theorem c3_str_roundtrip_counterexample :
    Duration.parse (.str (w "1:00")) = .ok (some (.int 3600)) ∧
    pyStr (.int 3600) = some (w "3600") ∧
    Duration.parse (.str (w "3600")) = .ok (some (.dec ⟨0, 0⟩)) ∧
    parseVal (.str (w "3600")) ≠ parseVal (.str (w "1:00")) := by
  have h₁ : Duration.parse (.str (w "1:00")) = .ok (some (.int 3600)) := by decide
  have h₂ : Duration.parse (.str (w "3600")) = .ok (some (.dec ⟨0, 0⟩)) := by decide
  refine ⟨h₁, by decide, h₂, ?_⟩
  unfold parseVal
  rw [h₁, h₂]
  simp only [numValOpt, PyNum.val, Dec.toRat, Option.some.injEq]
  norm_num

/-- C3 (amended): `Duration.parse` is idempotent on its own output when
the returned Python value (`None`, `int` or `Decimal`) is fed back
directly, without `str()` re-serialization: re-parsing succeeds and
yields the same numeric value. -/
theorem c3_reparse_idempotent (x : PyIn) (r : Option PyNum)
    (h : Duration.parse x = .ok r) :
    ∃ r', Duration.parse (reinput r) = .ok r' ∧ numValOpt r' = numValOpt r := by
  cases r with
  | none => exact ⟨Option.none, rfl, rfl⟩
  | some n =>
    cases n with
    | int z =>
      refine ⟨some (.dec (Dec.ofInt z)), rfl, ?_⟩
      simp [numValOpt, PyNum.val, Dec.toRat_ofInt]
    | dec d => exact ⟨some (.dec d), rfl, rfl⟩

theorem c3_reparse_idempotent_witness :
    Duration.parse (.str (w "1h")) = .ok (some (.dec ⟨3600, 0⟩)) ∧
    ∃ r', Duration.parse (reinput (some (.dec ⟨3600, 0⟩))) = .ok r' ∧
      numValOpt r' = numValOpt (some (.dec ⟨3600, 0⟩)) :=
  ⟨by decide, c3_reparse_idempotent (.str (w "1h")) (some (.dec ⟨3600, 0⟩)) (by decide)⟩

/-! ### Claim C8 -/

/-- C8: `Project.metric` does perform an exact-name lookup and returns
the `Metric` registered under a present name, but for a name with no
registered metric `self.metrics[name]` raises `KeyError` rather than
returning an absent result; its caller `MaxifyCmd._get_metric`
(main.py:162-163) checks the result for truthiness, which presupposes
the absent-result contract the claim states. -/
theorem c8_metric_missing_raises :
    Project.metric ⟨w "test", w "Test Project", []⟩ (w "Story Points")
      = .error .keyError ∧
    MaxifyCmd_get_metric ⟨w "test", w "Test Project", []⟩ (w "Story Points")
      = .error .keyError ∧
    Project.metric
        ⟨w "test", w "Test Project",
         [(w "Story Points", ⟨w "Story Points", .int, Option.none, some [1, 2, 3, 5, 8], some 3⟩)]⟩
        (w "Story Points")
      = .ok ⟨w "Story Points", .int, Option.none, some [1, 2, 3, 5, 8], some 3⟩ := by
  exact ⟨rfl, rfl, by decide⟩

/-! ### Claim C7 -/

/-- C7: after `add_metric` has registered a metric under a name, a
second `add_metric` with the same name fails with `ConfigError`
(whatever its other arguments), and the metric registered by the first
call is still the one stored under that name. -/
theorem c7_add_metric_duplicate (p p' : Project) (name : List Char)
    (u₁ u₂ : UnitsArg) (d₁ d₂ : Option (List Char)) (r₁ r₂ : Option (List ℤ))
    (v₁ v₂ : Option ℤ)
    (h : p.add_metric name u₁ d₁ r₁ v₁ = .ok p') :
    p'.add_metric name u₂ d₂ r₂ v₂ = .error .configError ∧
    ∃ m₁, Metric.make name u₁ d₁ r₁ v₁ = .ok m₁ ∧
      lookupMetric p'.metrics name = some m₁ := by
  unfold Project.add_metric at h ⊢
  split at h
  · exact absurd h (by simp)
  · next hlk =>
    cases hm : Metric.make name u₁ d₁ r₁ v₁ with
    | error e =>
      rw [hm] at h
      exact absurd h (by simp [Except.map])
    | ok m₁ =>
      rw [hm] at h
      simp only [Except.map, Except.ok.injEq] at h
      subst h
      have hnone : lookupMetric p.metrics name = Option.none := by
        cases hl : lookupMetric p.metrics name with
        | none => rfl
        | some m => rw [hl] at hlk; simp at hlk
      have hlook : lookupMetric (p.metrics ++ [(name, m₁)]) name = some m₁ := by
        rw [lookupMetric_append, hnone]
        simp [lookupMetric]
      constructor
      · simp [hlook]
      · exact ⟨m₁, rfl, hlook⟩

theorem c7_add_metric_duplicate_witness :
    Project.add_metric ⟨w "test", w "T", []⟩ (w "a") (.unitCls .int)
        Option.none Option.none Option.none =
      .ok ⟨w "test", w "T", [(w "a", ⟨w "a", .int, Option.none, Option.none, Option.none⟩)]⟩ ∧
    (Project.add_metric
        ⟨w "test", w "T", [(w "a", ⟨w "a", .int, Option.none, Option.none, Option.none⟩)]⟩
        (w "a") (.unitCls .float) Option.none Option.none Option.none =
      .error .configError ∧
     ∃ m₁, Metric.make (w "a") (.unitCls .int) Option.none Option.none Option.none = .ok m₁ ∧
       lookupMetric [(w "a", ⟨w "a", .int, Option.none, Option.none, Option.none⟩)]
         (w "a") = some m₁) :=
  ⟨by decide,
   c7_add_metric_duplicate ⟨w "test", w "T", []⟩
     ⟨w "test", w "T", [(w "a", ⟨w "a", .int, Option.none, Option.none, Option.none⟩)]⟩
     (w "a") (.unitCls .int) (.unitCls .float) Option.none Option.none Option.none
     Option.none Option.none Option.none (by decide)⟩

/-! ### Claim C5 -/

theorem pyNumEqInt_iff (v : PyNum) (k : ℤ) :
    pyNumEqInt v k = true ↔ v.val = (k : ℚ) := by
  cases v with
  | int z =>
    simp only [pyNumEqInt, PyNum.val, decide_eq_true_eq]
    constructor <;> intro h <;> exact_mod_cast h
  | dec d =>
    simp only [pyNumEqInt, PyNum.val, Dec.toRat]
    by_cases he : 0 ≤ d.e
    · rw [if_pos he, decide_eq_true_eq]
      set n := d.e.toNat with hn
      have hd : d.e = (n : ℤ) := by omega
      rw [hd, zpow_neg, zpow_natCast]
      rw [mul_inv_eq_iff_eq_mul₀ (pow_ne_zero n (by norm_num : (10 : ℚ) ≠ 0))]
      constructor <;> intro h' <;> exact_mod_cast h'
    · rw [if_neg he, decide_eq_true_eq]
      set n := (-d.e).toNat with hn
      have hd : d.e = -(n : ℤ) := by omega
      rw [hd, neg_neg, zpow_natCast]
      constructor <;> intro h' <;> exact_mod_cast h'

/-- C5: `Metric.validate v` succeeds returning `v` exactly when the
value range is unset or `v` is (numerically) a member of it, and fails
with `ValidationError` otherwise; a metric with range `[1,2,3,5,8,13]`
accepts 5 and rejects 4. -/
theorem c5_validate_range :
    (∀ (m : Metric) (v : PyNum),
      (m.validate v = .ok v ↔
        m.range = Option.none ∨ ∃ r, m.range = some r ∧ ∃ k ∈ r, v.val = (k : ℚ)) ∧
      (m.validate v = .ok v ∨ m.validate v = .error .validationError)) ∧
    Metric.validate ⟨w "m", .int, Option.none, some [1, 2, 3, 5, 8, 13], Option.none⟩
      (.int 5) = .ok (.int 5) ∧
    Metric.validate ⟨w "m", .int, Option.none, some [1, 2, 3, 5, 8, 13], Option.none⟩
      (.int 4) = .error .validationError := by
  refine ⟨fun m v => ⟨?_, ?_⟩, by decide, by decide⟩
  · rcases hr : m.range with - | r
    · simp [Metric.validate, hr]
    · simp only [Metric.validate, hr]
      cases ha : (r.any fun k => pyNumEqInt v k) with
      | true =>
        simp only [ha, if_true]
        constructor
        · intro _
          right
          rcases List.any_eq_true.mp ha with ⟨k, hk, hpk⟩
          exact ⟨r, rfl, k, hk, (pyNumEqInt_iff v k).mp hpk⟩
        · intro _
          trivial
      | false =>
        simp only [ha, Bool.false_eq_true, if_false]
        constructor
        · intro hcon
          exact absurd hcon (by simp)
        · rintro (hnone | ⟨r', hr', k, hk, hv⟩)
          · exact absurd hnone (by simp)
          · injection hr' with hr''
            subst hr''
            have h₁ : pyNumEqInt v k = true := (pyNumEqInt_iff v k).mpr hv
            have h₂ := List.any_eq_true.mpr ⟨k, hk, h₁⟩
            rw [ha] at h₂
            exact absurd h₂ (by simp)
  · unfold Metric.validate
    rcases m.range with - | r
    · left
      rfl
    · cases hb : (r.any fun k => pyNumEqInt v k) with
      | false =>
        right
        simp [hb]
      | true =>
        left
        simp [hb]

/-! ### Claim C6 -/

/-- C6: a batch task update is all-or-nothing.  If any pair of the
batch fails to resolve, parse or validate, the returned flag is `false`
and the task's data points are exactly the old ones; if the flag is
`true`, every pair was resolved, parsed and validated and the new data
points are the old ones plus the validated batch. -/
theorem c6_update_task_all_or_nothing (p : Project) (task : List DataPoint)
    (pairs : List (List Char × List Char)) :
    ((MaxifyCmd_update_task p task pairs).2 = false →
      (MaxifyCmd_update_task p task pairs).1 = task) ∧
    ((MaxifyCmd_update_task p task pairs).2 = true →
      ∃ mvs dps, collectMetrics p pairs = .ok mvs ∧ validateAll mvs = .ok dps ∧
        (MaxifyCmd_update_task p task pairs).1 = task ++ dps) := by
  unfold MaxifyCmd_update_task Project.update_task
  cases hc : collectMetrics p pairs with
  | error e => simp [hc]
  | ok mvs =>
    cases hv : validateAll mvs with
    | error e => simp [hc, hv]
    | ok dps =>
      simp only [hc, hv]
      constructor
      · intro hfalse
        simp at hfalse
      · intro _
        exact ⟨mvs, dps, rfl, hv, rfl⟩

theorem c6_update_task_witness :
    (MaxifyCmd_update_task
        ⟨w "test", w "T",
         [(w "Story Points",
           ⟨w "Story Points", .int, Option.none, some [1, 2, 3, 5, 8], some 3⟩)]⟩
        [] [(w "Story Points", w "4")]).2 = false ∧
    (MaxifyCmd_update_task
        ⟨w "test", w "T",
         [(w "Story Points",
           ⟨w "Story Points", .int, Option.none, some [1, 2, 3, 5, 8], some 3⟩)]⟩
        [] [(w "Story Points", w "4")]).1 = [] :=
  ⟨by decide,
   (c6_update_task_all_or_nothing
     ⟨w "test", w "T",
      [(w "Story Points",
        ⟨w "Story Points", .int, Option.none, some [1, 2, 3, 5, 8], some 3⟩)]⟩
     [] [(w "Story Points", w "4")]).1 (by decide)⟩

/-! ### Claim C4 -/

theorem determine_eq_detInt {cs : List Char} (h : durAttempt cs = Option.none) :
    determine_unit_and_value cs = detInt cs := by
  unfold durAttempt at h
  unfold determine_unit_and_value
  cases hp : Duration.parse (.str cs) with
  | error e => rfl
  | ok r =>
    cases r with
    | none => rfl
    | some n =>
      rw [hp] at h
      simp only [] at h
      cases ht : pyTruthy n with
      | true => rw [ht] at h; simp at h
      | false => simp [ht]

theorem detInt_some {cs : List Char} {z : ℤ} (h : intAttempt cs = some z) :
    detInt cs = some (.int, .int z) := by
  unfold intAttempt at h
  unfold detInt
  cases hp : pyIntParse cs with
  | none => rw [hp] at h; simp at h
  | some z' =>
    rw [hp] at h
    simp only [] at h
    split at h
    · next hz =>
      injection h with h'
      subst h'
      simp [hz]
    · simp at h

theorem detInt_none {cs : List Char} (h : intAttempt cs = Option.none) :
    detInt cs = detFloat cs := by
  unfold intAttempt at h
  unfold detInt
  cases hp : pyIntParse cs with
  | none => rfl
  | some z' =>
    rw [hp] at h
    simp only [] at h
    split at h
    · simp at h
    · next hz => simp [hz]

theorem detFloat_some {cs : List Char} {d : Dec} (h : floatAttempt cs = some d) :
    detFloat cs = some (.float, .dec d) := by
  unfold floatAttempt at h
  unfold detFloat
  cases hp : pyDecParse cs with
  | none => rw [hp] at h; simp at h
  | some d' =>
    rw [hp] at h
    simp only [] at h
    cases ht : d'.truthy with
    | true =>
      rw [ht] at h
      simp only [if_true] at h
      injection h with h'
      subst h'
      simp [ht]
    | false => rw [ht] at h; simp at h

theorem detFloat_none {cs : List Char} (h : floatAttempt cs = Option.none) :
    detFloat cs = Option.none := by
  unfold floatAttempt at h
  unfold detFloat
  cases hp : pyDecParse cs with
  | none => rfl
  | some d' =>
    rw [hp] at h
    simp only [] at h
    cases ht : d'.truthy with
    | true => rw [ht] at h; simp at h
    | false => simp [ht]

/-- C4: `determine_unit_and_value` tries `Duration`, then `Int`, then
`Float`, returns the first `(kind, value)` whose parse succeeds with a
truthy (nonzero) value, and on exhaustion returns `(None, None)`
without raising; `"3h"` yields `(Duration, 10800)`, `"abc"` and the
everywhere-zero `"0"` yield `(None, None)`. -/
theorem c4_determine_priority :
    (∀ cs n, durAttempt cs = some n →
      determine_unit_and_value cs = some (.duration, n)) ∧
    (∀ cs z, durAttempt cs = Option.none → intAttempt cs = some z →
      determine_unit_and_value cs = some (.int, .int z)) ∧
    (∀ cs d, durAttempt cs = Option.none → intAttempt cs = Option.none →
      floatAttempt cs = some d →
      determine_unit_and_value cs = some (.float, .dec d)) ∧
    (∀ cs, durAttempt cs = Option.none → intAttempt cs = Option.none →
      floatAttempt cs = Option.none →
      determine_unit_and_value cs = Option.none) ∧
    determine_unit_and_value (w "3h") = some (.duration, .dec ⟨10800, 0⟩) ∧
    (PyNum.dec ⟨10800, 0⟩).val = 10800 ∧
    determine_unit_and_value (w "abc") = Option.none ∧
    determine_unit_and_value (w "0") = Option.none := by
  refine ⟨?_, ?_, ?_, ?_, by decide, ?_, by decide, by decide⟩
  · intro cs n h
    unfold durAttempt at h
    unfold determine_unit_and_value
    cases hp : Duration.parse (.str cs) with
    | error e => rw [hp] at h; simp at h
    | ok r =>
      cases r with
      | none => rw [hp] at h; simp at h
      | some n' =>
        rw [hp] at h
        simp only [] at h
        cases ht : pyTruthy n' with
        | true =>
          rw [ht] at h
          simp only [if_true] at h
          injection h with h'
          subst h'
          simp [ht]
        | false => rw [ht] at h; simp at h
  · intro cs z h₁ h₂
    rw [determine_eq_detInt h₁]
    exact detInt_some h₂
  · intro cs d h₁ h₂ h₃
    rw [determine_eq_detInt h₁, detInt_none h₂]
    exact detFloat_some h₃
  · intro cs h₁ h₂ h₃
    rw [determine_eq_detInt h₁, detInt_none h₂]
    exact detFloat_none h₃
  · simp [PyNum.val, Dec.toRat]

theorem c4_determine_priority_witness :
    durAttempt (w "3h") = some (.dec ⟨10800, 0⟩) ∧
    determine_unit_and_value (w "3h") = some (.duration, .dec ⟨10800, 0⟩) :=
  ⟨by decide, c4_determine_priority.1 (w "3h") (.dec ⟨10800, 0⟩) (by decide)⟩

/-! ### Scan facts used by the clock-string claim -/

theorem numTake_rest_subset {cs n r : List Char} (h : numTake cs = some (n, r)) :
    ∀ c ∈ r, c ∈ cs := by
  unfold numTake at h
  split at h
  · simp at h
  · split at h
    · next c₀ r₂ heq =>
      split at h
      · simp only [Option.some.injEq, Prod.mk.injEq] at h
        rcases h with ⟨-, h⟩
        subst h
        intro c hc
        have h₁ : c ∈ r₂ := (List.dropWhile_sublist _).subset hc
        have h₂ : c ∈ cs.dropWhile isDigit := by
          rw [heq]
          exact List.mem_cons_of_mem _ h₁
        exact (List.dropWhile_sublist _).subset h₂
      · simp only [Option.some.injEq, Prod.mk.injEq] at h
        rcases h with ⟨-, h⟩
        subst h
        intro c hc
        have h₂ : c ∈ cs.dropWhile isDigit := by
          rw [heq]
          exact hc
        exact (List.dropWhile_sublist _).subset h₂
    · next heq =>
      simp only [Option.some.injEq, Prod.mk.injEq] at h
      rcases h with ⟨-, h⟩
      subst h
      intro c hc
      exact absurd hc (List.not_mem_nil c)

theorem matchAt_none_no_letter {cs : List Char} (h : ∀ c ∈ cs, isLetter c = false) :
    matchAt cs = Option.none := by
  unfold matchAt
  have hL : cs.takeWhile isLetter = [] := takeWhile_all_false h
  rw [if_pos hL]
  cases hnt : numTake cs with
  | none => rfl
  | some pr =>
    obtain ⟨n, r⟩ := pr
    simp only []
    have hsub := numTake_rest_subset hnt
    have hU : (r.dropWhile isSpace).takeWhile isLetter = [] := by
      apply takeWhile_all_false
      intro c hc
      exact h c (hsub c ((List.dropWhile_sublist _).subset hc))
    rw [if_pos hU]

theorem scan_no_letter {cs : List Char} (h : ∀ c ∈ cs, isLetter c = false) :
    scan cs = [] := by
  induction cs with
  | nil => exact scan_nil
  | cons c t ih =>
    rw [scan_cons_skip (matchAt_none_no_letter h)]
    exact ih (fun c hc => h c (List.mem_cons_of_mem _ hc))

/-! ### Claim C1 -/

theorem clockField_all_digit {b : Bool} {v : ℕ} (h : v < 60) :
    ∀ c ∈ clockField b v, isDigit c = true := by
  intro c hc
  unfold clockField at hc
  by_cases h10 : v < 10
  · rw [if_pos h10] at hc
    cases b with
    | false =>
      simp only [List.mem_singleton, if_false, Bool.false_eq_true, reduceIte] at hc
      subst hc
      exact digitChar_isDigit h10
    | true =>
      simp only [if_true, List.mem_cons, List.mem_singleton, List.not_mem_nil, or_false] at hc
      rcases hc with hc | hc <;> subst hc
      · decide
      · exact digitChar_isDigit h10
  · rw [if_neg h10] at hc
    simp only [List.mem_cons, List.mem_singleton, List.not_mem_nil, or_false] at hc
    rcases hc with hc | hc <;> subst hc
    · exact digitChar_isDigit (by omega)
    · exact digitChar_isDigit (Nat.mod_lt _ (by norm_num))

theorem matchH_clockField {b : Bool} {v : ℕ} (h : v < 24) :
    matchH (clockField b v) = some v := by
  by_cases h10 : v < 10
  · interval_cases v <;> cases b <;> decide
  · unfold clockField matchH
    rw [if_neg h10]
    have hd1 : v / 10 < 10 := by omega
    have hd2 : v % 10 < 10 := Nat.mod_lt _ (by norm_num)
    simp only [digitChar_isDigit hd1, digitChar_isDigit hd2, digitVal_digitChar hd1,
      digitVal_digitChar hd2, Bool.and_self, if_true]
    rw [Nat.div_add_mod]
    rw [if_pos (by omega)]

theorem matchM_clockField {b : Bool} {v : ℕ} (h : v < 60) :
    matchM (clockField b v) = some v := by
  by_cases h10 : v < 10
  · interval_cases v <;> cases b <;> decide
  · unfold clockField matchM
    rw [if_neg h10]
    have hd1 : v / 10 < 10 := by omega
    have hd2 : v % 10 < 10 := Nat.mod_lt _ (by norm_num)
    simp only [digitChar_isDigit hd1, digitChar_isDigit hd2, digitVal_digitChar hd1,
      digitVal_digitChar hd2, Bool.and_self, if_true]
    rw [Nat.div_add_mod]
    rw [if_pos (by omega)]

theorem matchS_clockField {b : Bool} {v : ℕ} (h : v < 60) :
    matchS (clockField b v) = some v := by
  by_cases h10 : v < 10
  · interval_cases v <;> cases b <;> decide
  · unfold clockField matchS
    rw [if_neg h10]
    have hd1 : v / 10 < 10 := by omega
    have hd2 : v % 10 < 10 := Nat.mod_lt _ (by norm_num)
    simp only [digitChar_isDigit hd1, digitChar_isDigit hd2, digitVal_digitChar hd1,
      digitVal_digitChar hd2, Bool.and_self, if_true]
    rw [Nat.div_add_mod]
    rw [if_pos (by omega)]

theorem clockField_no_colon {b : Bool} {v : ℕ} (h : v < 60) :
    ∀ c ∈ clockField b v, c ≠ ':' :=
  fun c hc => digit_ne_colon (clockField_all_digit h c hc)

theorem tryParseTimeFmt_clock3 {bh bm bs : Bool} {h m s : ℕ}
    (hh : h < 24) (hm : m < 60) (hs : s < 60) :
    tryParseTimeFmt (renderClock3 bh bm bs h m s) = some (h * 3600 + m * 60 + s) := by
  have hr : renderClock3 bh bm bs h m s =
      clockField bh h ++ ':' :: (clockField bm m ++ ':' :: clockField bs s) := by
    simp [renderClock3]
  unfold tryParseTimeFmt
  rw [hr, splitColon_append_colon _ (clockField_no_colon (by omega)),
    splitColon_append_colon _ (clockField_no_colon hm),
    splitColon_no_colon (clockField_no_colon hs)]
  simp only [matchH_clockField hh, matchM_clockField hm, matchS_clockField hs]

theorem tryParseTimeFmt_clock2 {bh bm : Bool} {h m : ℕ}
    (hh : h < 24) (hm : m < 60) :
    tryParseTimeFmt (renderClock2 bh bm h m) = some (h * 3600 + m * 60) := by
  unfold tryParseTimeFmt renderClock2
  rw [splitColon_append_colon _ (clockField_no_colon (by omega)),
    splitColon_no_colon (clockField_no_colon hm)]
  simp only [matchH_clockField hh, matchM_clockField hm]

theorem renderClock3_no_letter {bh bm bs : Bool} {h m s : ℕ}
    (hh : h < 24) (hm : m < 60) (hs : s < 60) :
    ∀ c ∈ renderClock3 bh bm bs h m s, isLetter c = false := by
  have hr : renderClock3 bh bm bs h m s =
      clockField bh h ++ ':' :: (clockField bm m ++ ':' :: clockField bs s) := by
    simp [renderClock3]
  intro c hc
  rw [hr] at hc
  simp only [List.mem_append, List.mem_cons] at hc
  rcases hc with hc | rfl | hc | rfl | hc
  · exact digit_not_letter (clockField_all_digit (by omega) c hc)
  · decide
  · exact digit_not_letter (clockField_all_digit hm c hc)
  · decide
  · exact digit_not_letter (clockField_all_digit hs c hc)

theorem renderClock2_no_letter {bh bm : Bool} {h m : ℕ}
    (hh : h < 24) (hm : m < 60) :
    ∀ c ∈ renderClock2 bh bm h m, isLetter c = false := by
  intro c hc
  unfold renderClock2 at hc
  simp only [List.mem_append, List.mem_cons] at hc
  rcases hc with hc | rfl | hc
  · exact digit_not_letter (clockField_all_digit (by omega) c hc)
  · decide
  · exact digit_not_letter (clockField_all_digit hm c hc)

theorem parseVal_of_timeFmt {cs : List Char} {v : ℕ}
    (ht : tryParseTimeFmt cs = some v)
    (hnl : ∀ c ∈ cs, isLetter c = false) :
    parseVal (.str cs) = some ((v : ℕ) : ℚ) := by
  unfold parseVal
  have hp : Duration.parse (.str cs) =
      match tryParseTimeFmt cs with
      | some v =>
        if v ≠ 0 then .ok (some (.int (v : ℤ)))
        else (sumMatches (scan cs)).map (fun s => some (.dec s))
      | Option.none => (sumMatches (scan cs)).map (fun s => some (.dec s)) := rfl
  rw [hp, ht]
  simp only []
  by_cases hv : v = 0
  · subst hv
    simp only [ne_eq, not_true_eq_false, if_false, reduceIte]
    rw [scan_no_letter hnl]
    simp [sumMatches, Except.map, numValOpt, PyNum.val, Dec.toRat]
  · rw [if_pos hv]
    simp only [numValOpt, PyNum.val]
    norm_num

/-- C1: for every clock string of the form `HH:MM:SS` or `HH:MM`
(each field zero-padded or not) with `0 ≤ HH < 24`, `0 ≤ MM < 60`,
`0 ≤ SS < 60`, `Duration.parse` succeeds and returns the numeric value
`HH*3600 + MM*60 + SS` (as the Python `int` the clock path produces or,
when the value is zero, as the scan's `Decimal(0)`). -/
theorem c1_clock_strings (h m s : ℕ) (bh bm bs : Bool)
    (hh : h < 24) (hm : m < 60) (hs : s < 60) :
    parseVal (.str (renderClock3 bh bm bs h m s)) =
      some ((h * 3600 + m * 60 + s : ℕ) : ℚ) ∧
    parseVal (.str (renderClock2 bh bm h m)) =
      some ((h * 3600 + m * 60 : ℕ) : ℚ) :=
  ⟨parseVal_of_timeFmt (tryParseTimeFmt_clock3 hh hm hs)
     (renderClock3_no_letter hh hm hs),
   parseVal_of_timeFmt (tryParseTimeFmt_clock2 hh hm)
     (renderClock2_no_letter hh hm)⟩

theorem c1_clock_strings_witness :
    (1 < 24 ∧ 30 < 60 ∧ 5 < 60) ∧
    renderClock3 false false true 1 30 5 = w "1:30:05" ∧
    parseVal (.str (renderClock3 false false true 1 30 5)) =
      some ((1 * 3600 + 30 * 60 + 5 : ℕ) : ℚ) :=
  ⟨by norm_num, by decide,
   (c1_clock_strings 1 30 5 false false true (by norm_num) (by norm_num)
     (by norm_num)).1⟩

/-! ### Claim C2: token-level scan lemmas -/

theorem takeWhile_all {p : Char → Bool} {l : List Char} (h : l.all p = true) :
    l.takeWhile p = l := by
  induction l with
  | nil => rfl
  | cons c t ih =>
    simp only [List.all_cons, Bool.and_eq_true] at h
    simp [List.takeWhile_cons, h.1, ih h.2]

theorem dropWhile_all {p : Char → Bool} {l : List Char} (h : l.all p = true) :
    l.dropWhile p = [] := by
  induction l with
  | nil => rfl
  | cons c t ih =>
    simp only [List.all_cons, Bool.and_eq_true] at h
    simp [List.dropWhile_cons, h.1, ih h.2]

theorem numeral_wf_parts {n : Numeral} (h : n.wfB = true) :
    n.ip ≠ [] ∧ n.ip.all isDigit = true ∧
      (∀ ds, n.fr = some ds → ds.all isDigit = true) := by
  unfold Numeral.wfB at h
  simp only [Bool.and_eq_true, Bool.not_eq_true'] at h
  obtain ⟨⟨hne, hdig⟩, hfr⟩ := h
  refine ⟨?_, hdig, ?_⟩
  · intro hnil
    rw [hnil] at hne
    simp at hne
  · intro ds hds
    rw [hds] at hfr
    exact hfr

theorem token_wf_parts {t : Token} (h : t.wfB = true) :
    t.unit ∈ allUnitWords ∧ t.sp.all isSpace = true ∧ t.num.wfB = true := by
  unfold Token.wfB at h
  simp only [Bool.and_eq_true, decide_eq_true_eq] at h
  exact ⟨h.1.1, h.1.2, h.2⟩

theorem unitWord_ne_nil {u : List Char} (h : u ∈ allUnitWords) : u ≠ [] := by
  fin_cases h <;> decide

theorem unitWord_all_letter {u : List Char} (h : u ∈ allUnitWords) :
    u.all isLetter = true := by
  fin_cases h <;> decide

theorem unitWord_findMult {u : List Char} (h : u ∈ allUnitWords) :
    (findMult u).isSome = true := by
  fin_cases h <;> decide

/-- What may follow the `\d+\.?\d*` sub-match without extending it:
nothing, or a character that is neither a digit nor the dot. -/
def freshTail (l : List Char) : Prop :=
  l = [] ∨ ∃ c t, l = c :: t ∧ isDigit c = false ∧ c ≠ '.'

theorem boundary_freshTail {l : List Char} (h : boundary l) : freshTail l := by
  rcases h with rfl | ⟨c, t, rfl, hc⟩
  · exact Or.inl rfl
  · exact Or.inr ⟨c, t, rfl, space_not_digit hc, space_ne_dot hc⟩

theorem freshTail_takeWhile_digit {l : List Char} (h : freshTail l) :
    l.takeWhile isDigit = [] := by
  rcases h with rfl | ⟨c, t, rfl, hc, -⟩
  · rfl
  · exact takeWhile_cons_false t hc

theorem freshTail_dropWhile_digit {l : List Char} (h : freshTail l) :
    l.dropWhile isDigit = l := by
  rcases h with rfl | ⟨c, t, rfl, hc, -⟩
  · rfl
  · exact dropWhile_cons_false t hc

theorem boundary_takeWhile_letter {l : List Char} (h : boundary l) :
    l.takeWhile isLetter = [] := by
  rcases h with rfl | ⟨c, t, rfl, hc⟩
  · rfl
  · exact takeWhile_cons_false t (space_not_letter hc)

theorem boundary_dropWhile_letter {l : List Char} (h : boundary l) :
    l.dropWhile isLetter = l := by
  rcases h with rfl | ⟨c, t, rfl, hc⟩
  · rfl
  · exact dropWhile_cons_false t (space_not_letter hc)

/-- The sub-match `\d+\.?\d*` consumes exactly a well-formed numeral
when what follows can extend neither its digit runs nor its dot. -/
theorem numTake_render {n : Numeral} {rest : List Char}
    (hn : n.wfB = true) (hb : freshTail rest) :
    numTake (n.render ++ rest) = some (n.render, rest) := by
  obtain ⟨hip_ne, hip_dig, hfr⟩ := numeral_wf_parts hn
  cases hfrv : n.fr with
  | none =>
    have hrender : n.render = n.ip := by simp [Numeral.render, hfrv]
    rw [hrender]
    unfold numTake
    have htw : (n.ip ++ rest).takeWhile isDigit = n.ip := by
      rw [takeWhile_append_all _ hip_dig, freshTail_takeWhile_digit hb,
        List.append_nil]
    have hdw : (n.ip ++ rest).dropWhile isDigit = rest := by
      rw [dropWhile_append_all _ hip_dig, freshTail_dropWhile_digit hb]
    rw [if_neg (by rw [htw]; exact hip_ne)]
    rw [hdw, htw]
    rcases hb with rfl | ⟨c, t, rfl, hcd, hcdot⟩
    · rfl
    · simp only [if_neg hcdot]
  | some ds =>
    have hds : ds.all isDigit = true := hfr ds hfrv
    have hrender : n.render = n.ip ++ '.' :: ds := by simp [Numeral.render, hfrv]
    rw [hrender]
    have hshape : (n.ip ++ '.' :: ds) ++ rest = n.ip ++ '.' :: (ds ++ rest) := by
      simp
    rw [hshape]
    unfold numTake
    have htw : (n.ip ++ '.' :: (ds ++ rest)).takeWhile isDigit = n.ip := by
      rw [takeWhile_append_all _ hip_dig,
        takeWhile_cons_false _ (by decide : isDigit '.' = false), List.append_nil]
    have hdw : (n.ip ++ '.' :: (ds ++ rest)).dropWhile isDigit = '.' :: (ds ++ rest) := by
      rw [dropWhile_append_all _ hip_dig,
        dropWhile_cons_false _ (by decide : isDigit '.' = false)]
    rw [if_neg (by rw [htw]; exact hip_ne)]
    rw [hdw, htw]
    show (if ('.' : Char) = '.' then
        some (n.ip ++ '.' :: (ds ++ rest).takeWhile isDigit, (ds ++ rest).dropWhile isDigit)
      else some (n.ip, '.' :: (ds ++ rest))) = some (n.ip ++ '.' :: ds, rest)
    rw [if_pos rfl, takeWhile_append_all _ hds, freshTail_takeWhile_digit hb,
      List.append_nil, dropWhile_append_all _ hds, freshTail_dropWhile_digit hb]

/-- The first regex alternative consumes exactly a unit-first token. -/
theorem matchAt_unit_first {u ws rest : List Char} {n : Numeral}
    (hu : u ≠ []) (hul : u.all isLetter = true)
    (hws : ws.all isSpace = true) (hn : n.wfB = true) (hb : boundary rest) :
    matchAt (u ++ ws ++ n.render ++ rest) = some (⟨u, n.render⟩, rest) := by
  obtain ⟨hip_ne, hip_dig, -⟩ := numeral_wf_parts hn
  obtain ⟨c0, ip', hip⟩ : ∃ c0 ip', n.ip = c0 :: ip' := by
    cases hip : n.ip with
    | nil => exact absurd hip hip_ne
    | cons a b => exact ⟨a, b, rfl⟩
  have hc0 : isDigit c0 = true := by
    have := hip_dig
    rw [hip] at this
    simp only [List.all_cons, Bool.and_eq_true] at this
    exact this.1
  have hhead : ∃ c t, n.render ++ rest = c :: t ∧ isDigit c = true := by
    refine ⟨c0, ip' ++ (match n.fr with | some ds => '.' :: ds | Option.none => []) ++ rest,
      ?_, hc0⟩
    simp [Numeral.render, hip]
  have hmid : ∃ c t, ws ++ (n.render ++ rest) = c :: t ∧ isLetter c = false := by
    cases hws' : ws with
    | nil =>
      obtain ⟨c, t, hct, hcd⟩ := hhead
      exact ⟨c, t, by simp [hct], digit_not_letter hcd⟩
    | cons c wt =>
      have : isSpace c = true := by
        rw [hws'] at hws
        simp only [List.all_cons, Bool.and_eq_true] at hws
        exact hws.1
      exact ⟨c, wt ++ (n.render ++ rest), by simp, space_not_letter this⟩
  have htwl : (u ++ (ws ++ (n.render ++ rest))).takeWhile isLetter = u := by
    rw [takeWhile_append_all _ hul]
    obtain ⟨c, t, hct, hcl⟩ := hmid
    rw [hct, takeWhile_cons_false _ hcl, List.append_nil]
  have hdwl : (u ++ (ws ++ (n.render ++ rest))).dropWhile isLetter =
      ws ++ (n.render ++ rest) := by
    rw [dropWhile_append_all _ hul]
    obtain ⟨c, t, hct, hcl⟩ := hmid
    rw [hct, dropWhile_cons_false _ hcl, ← hct]
  have hdws : (ws ++ (n.render ++ rest)).dropWhile isSpace = n.render ++ rest := by
    rw [dropWhile_append_all _ hws]
    obtain ⟨c, t, hct, hcd⟩ := hhead
    rw [hct, dropWhile_cons_false _ (digit_not_space hcd), ← hct]
  rw [show u ++ ws ++ n.render ++ rest = u ++ (ws ++ (n.render ++ rest)) by simp]
  unfold matchAt
  rw [if_neg (by rw [htwl]; exact hu)]
  rw [hdwl, hdws, numTake_render hn (boundary_freshTail hb), htwl]

/-- The second regex alternative consumes exactly a numeral-first
token. -/
theorem matchAt_num_first {u ws rest : List Char} {n : Numeral}
    (hu : u ≠ []) (hul : u.all isLetter = true)
    (hws : ws.all isSpace = true) (hn : n.wfB = true) (hb : boundary rest) :
    matchAt (n.render ++ ws ++ u ++ rest) = some (⟨u, n.render⟩, rest) := by
  obtain ⟨hip_ne, hip_dig, -⟩ := numeral_wf_parts hn
  obtain ⟨c0, ip', hip⟩ : ∃ c0 ip', n.ip = c0 :: ip' := by
    cases hip : n.ip with
    | nil => exact absurd hip hip_ne
    | cons a b => exact ⟨a, b, rfl⟩
  have hc0 : isDigit c0 = true := by
    have := hip_dig
    rw [hip] at this
    simp only [List.all_cons, Bool.and_eq_true] at this
    exact this.1
  obtain ⟨cu, ut, hu'⟩ : ∃ cu ut, u = cu :: ut := by
    cases hu'' : u with
    | nil => exact absurd hu'' hu
    | cons a b => exact ⟨a, b, rfl⟩
  have hcu : isLetter cu = true := by
    have := hul
    rw [hu'] at this
    simp only [List.all_cons, Bool.and_eq_true] at this
    exact this.1
  have hhead : ∃ t, n.render ++ (ws ++ (u ++ rest)) = c0 :: t := by
    refine ⟨ip' ++ ((match n.fr with | some ds => '.' :: ds | Option.none => []) ++
      (ws ++ (u ++ rest))), ?_⟩
    simp [Numeral.render, hip]
  have htwl : (n.render ++ (ws ++ (u ++ rest))).takeWhile isLetter = [] := by
    obtain ⟨t, hct⟩ := hhead
    rw [hct]
    exact takeWhile_cons_false _ (digit_not_letter hc0)
  have hfresh : freshTail (ws ++ (u ++ rest)) := by
    cases hws' : ws with
    | nil =>
      refine Or.inr ⟨cu, ut ++ rest, by simp [hu'], letter_not_digit hcu, letter_ne_dot hcu⟩
    | cons c wt =>
      have hcs : isSpace c = true := by
        rw [hws'] at hws
        simp only [List.all_cons, Bool.and_eq_true] at hws
        exact hws.1
      exact Or.inr ⟨c, wt ++ (u ++ rest), by simp, space_not_digit hcs, space_ne_dot hcs⟩
  have hnt : numTake (n.render ++ (ws ++ (u ++ rest))) =
      some (n.render, ws ++ (u ++ rest)) :=
    numTake_render hn hfresh
  have hdws : (ws ++ (u ++ rest)).dropWhile isSpace = u ++ rest := by
    rw [dropWhile_append_all _ hws, hu', List.cons_append,
      dropWhile_cons_false _ (letter_not_space hcu), ← List.cons_append, ← hu']
  have htwu : (u ++ rest).takeWhile isLetter = u := by
    rw [takeWhile_append_all _ hul, boundary_takeWhile_letter hb, List.append_nil]
  have hdwu : (u ++ rest).dropWhile isLetter = rest := by
    rw [dropWhile_append_all _ hul, boundary_dropWhile_letter hb]
  rw [show n.render ++ ws ++ u ++ rest = n.render ++ (ws ++ (u ++ rest)) by simp]
  unfold matchAt
  rw [if_pos htwl, hnt]
  simp only [hdws, htwu, hdwu]
  rw [if_neg hu]

/-- The scan consumes one well-formed token from the front when the
remainder starts with whitespace or is empty. -/
theorem scan_token {t : Token} {rest : List Char}
    (hwf : t.wfB = true) (hb : boundary rest) :
    scan (t.render ++ rest) = (⟨t.unit, t.num.render⟩ : RawMatch) :: scan rest := by
  obtain ⟨hmem, hsp, hnum⟩ := token_wf_parts hwf
  have hu := unitWord_ne_nil hmem
  have hul := unitWord_all_letter hmem
  cases htf : t.unitFirst with
  | true =>
    have hr : t.render ++ rest = t.unit ++ t.sp ++ t.num.render ++ rest := by
      simp [Token.render, htf]
    rw [hr]
    exact scan_cons_match (matchAt_unit_first hu hul hsp hnum hb)
  | false =>
    have hr : t.render ++ rest = t.num.render ++ t.sp ++ t.unit ++ rest := by
      simp [Token.render, htf]
    rw [hr]
    exact scan_cons_match (matchAt_num_first hu hul hsp hnum hb)

theorem matchAt_space_head {c : Char} {l : List Char} (hc : isSpace c = true) :
    matchAt (c :: l) = Option.none := by
  unfold matchAt
  rw [if_pos (takeWhile_cons_false _ (space_not_letter hc))]
  unfold numTake
  rw [if_pos (takeWhile_cons_false _ (space_not_digit hc))]

theorem scan_spaces {ws rest : List Char} (h : ws.all isSpace = true) :
    scan (ws ++ rest) = scan rest := by
  induction ws with
  | nil => rfl
  | cons c t ih =>
    simp only [List.all_cons, Bool.and_eq_true] at h
    rw [List.cons_append, scan_cons_skip (matchAt_space_head h.1)]
    exact ih h.2

/-- The scan of a compound expression is exactly its token list. -/
theorem scan_expr (t₀ : Token) (rest : List (List Char × Token))
    (h₀ : t₀.wfB = true)
    (hrest : ∀ pt ∈ rest, (pt.1 ≠ [] ∧ pt.1.all isSpace = true) ∧ pt.2.wfB = true) :
    scan (renderExpr t₀ rest) = (⟨t₀.unit, t₀.num.render⟩ : RawMatch) ::
      rest.map (fun pt => (⟨pt.2.unit, pt.2.num.render⟩ : RawMatch)) := by
  induction rest generalizing t₀ with
  | nil =>
    rw [show renderExpr t₀ [] = t₀.render ++ [] from rfl]
    rw [scan_token h₀ (Or.inl rfl), scan_nil]
    rfl
  | cons pt more ih =>
    obtain ⟨⟨hne, hsp⟩, hwf⟩ := hrest pt (by simp)
    obtain ⟨ws, t₁⟩ := pt
    obtain ⟨c, wt, hws⟩ : ∃ c wt, ws = c :: wt := by
      cases hws : ws with
      | nil => exact absurd hws hne
      | cons a b => exact ⟨a, b, rfl⟩
    have hcs : isSpace c = true := by
      rw [hws] at hsp
      simp only [List.all_cons, Bool.and_eq_true] at hsp
      exact hsp.1
    have hshape : renderExpr t₀ ((ws, t₁) :: more) =
        t₀.render ++ (ws ++ (t₁.render ++ (more.map (fun pt => pt.1 ++ pt.2.render)).flatten)) := by
      simp [renderExpr]
    rw [hshape]
    have hbnd : boundary (ws ++ (t₁.render ++ (more.map (fun pt => pt.1 ++ pt.2.render)).flatten)) := by
      rw [hws, List.cons_append]
      exact Or.inr ⟨c, _, rfl, hcs⟩
    rw [scan_token h₀ hbnd]
    rw [scan_spaces hsp]
    have : t₁.render ++ (more.map (fun pt => pt.1 ++ pt.2.render)).flatten =
        renderExpr t₁ more := rfl
    rw [this, ih t₁ hwf (fun x hx => hrest x (List.mem_cons_of_mem _ hx))]
    rfl

/-! ### Claim C2: value of the scanned expression -/

theorem natOfDigits_acc (b : List Char) :
    ∀ a : ℕ, b.foldl (fun x c => 10 * x + digitVal c) a =
      a * 10 ^ b.length + b.foldl (fun x c => 10 * x + digitVal c) 0 := by
  induction b with
  | nil => intro a; simp
  | cons c t ih =>
    intro a
    simp only [List.foldl_cons, List.length_cons]
    rw [ih (10 * a + digitVal c), ih (10 * 0 + digitVal c)]
    ring

theorem natOfDigits_append (a b : List Char) :
    natOfDigits (a ++ b) = natOfDigits a * 10 ^ b.length + natOfDigits b := by
  unfold natOfDigits
  rw [List.foldl_append]
  exact natOfDigits_acc b (natOfDigits a)

/-- `Decimal(num)` of a rendered well-formed numeral has the numeral's
rational value. -/
theorem decOfNumStr_toRat {n : Numeral} (hn : n.wfB = true) :
    (decOfNumStr n.render).toRat = n.val := by
  obtain ⟨hip_ne, hip_dig, hfr⟩ := numeral_wf_parts hn
  cases hfrv : n.fr with
  | none =>
    have hrender : n.render = n.ip := by simp [Numeral.render, hfrv]
    rw [hrender]
    unfold decOfNumStr
    rw [dropWhile_all hip_dig, takeWhile_all hip_dig]
    unfold Dec.toRat Numeral.val
    rw [hfrv]
    push_cast
    simp

  | some ds =>
    have hds : ds.all isDigit = true := hfr ds hfrv
    have hrender : n.render = n.ip ++ '.' :: ds := by simp [Numeral.render, hfrv]
    rw [hrender]
    unfold decOfNumStr
    rw [dropWhile_append_all _ hip_dig,
      dropWhile_cons_false _ (by decide : isDigit '.' = false),
      takeWhile_append_all _ hip_dig,
      takeWhile_cons_false _ (by decide : isDigit '.' = false), List.append_nil]
    show (Dec.mk (natOfDigits (n.ip ++ ds.takeWhile isDigit)) ((ds.takeWhile isDigit).length : ℤ)).toRat = n.val
    rw [takeWhile_all hds]
    unfold Dec.toRat Numeral.val
    rw [hfrv, natOfDigits_append]
    have h10 : (10 : ℚ) ^ ds.length ≠ 0 := pow_ne_zero _ (by norm_num)
    rw [zpow_neg, zpow_natCast]
    push_cast
    field_simp

theorem sumMatches_tokens (l : List Token) (h : ∀ t ∈ l, t.wfB = true) :
    ∃ d : Dec,
      sumMatches (l.map fun t => (⟨t.unit, t.num.render⟩ : RawMatch)) = .ok d ∧
      d.toRat = (l.map Token.val).sum := by
  induction l with
  | nil =>
    refine ⟨⟨0, 0⟩, rfl, ?_⟩
    simp [Dec.toRat]
  | cons t rest ih =>
    obtain ⟨d', hd', hval⟩ := ih (fun x hx => h x (List.mem_cons_of_mem _ hx))
    have htw := h t (by simp)
    obtain ⟨hmem, -, hnum⟩ := token_wf_parts htw
    obtain ⟨m, hm⟩ := Option.isSome_iff_exists.mp (unitWord_findMult hmem)
    refine ⟨((decOfNumStr t.num.render).mul (Dec.ofInt m)).add d', ?_, ?_⟩
    · simp only [List.map_cons, sumMatches, hm, hd', Except.map]
    · rw [Dec.toRat_add, Dec.toRat_mul, Dec.toRat_ofInt, hval,
        decOfNumStr_toRat hnum]
      simp only [List.map_cons, List.sum_cons, Token.val, hm, Option.getD_some]
      push_cast
      ring

/-! ### Claim C2: the expression avoids the clock formats -/

theorem numeral_render_no_colon {n : Numeral} (h : n.wfB = true) :
    ∀ c ∈ n.render, c ≠ ':' := by
  obtain ⟨-, hip_dig, hfr⟩ := numeral_wf_parts h
  intro c hc
  unfold Numeral.render at hc
  rw [List.mem_append] at hc
  rcases hc with hc | hc
  · exact digit_ne_colon (by simpa using List.all_eq_true.mp hip_dig c hc)
  · cases hfrv : n.fr with
    | none => rw [hfrv] at hc; simp at hc
    | some ds =>
      rw [hfrv] at hc
      rcases List.mem_cons.mp hc with rfl | hc
      · decide
      · exact digit_ne_colon (by simpa using List.all_eq_true.mp (hfr ds hfrv) c hc)

theorem token_render_no_colon {t : Token} (h : t.wfB = true) :
    ∀ c ∈ t.render, c ≠ ':' := by
  obtain ⟨hmem, hsp, hnum⟩ := token_wf_parts h
  have hul := unitWord_all_letter hmem
  intro c hc
  unfold Token.render at hc
  have hunit : c ∈ t.unit → c ≠ ':' :=
    fun hm => letter_ne_colon (by simpa using List.all_eq_true.mp hul c hm)
  have hspc : c ∈ t.sp → c ≠ ':' :=
    fun hm => space_ne_colon (by simpa using List.all_eq_true.mp hsp c hm)
  have hnumc : c ∈ t.num.render → c ≠ ':' := numeral_render_no_colon hnum c
  cases htf : t.unitFirst with
  | true =>
    rw [htf] at hc
    simp only [if_true, List.mem_append] at hc
    rcases hc with (hc | hc) | hc
    · exact hunit hc
    · exact hspc hc
    · exact hnumc hc
  | false =>
    rw [htf] at hc
    simp only [Bool.false_eq_true, if_false, List.mem_append] at hc
    rcases hc with (hc | hc) | hc
    · exact hnumc hc
    · exact hspc hc
    · exact hunit hc

theorem renderExpr_no_colon (t₀ : Token) (rest : List (List Char × Token))
    (h₀ : t₀.wfB = true)
    (hrest : ∀ pt ∈ rest, (pt.1 ≠ [] ∧ pt.1.all isSpace = true) ∧ pt.2.wfB = true) :
    ∀ c ∈ renderExpr t₀ rest, c ≠ ':' := by
  intro c hc
  unfold renderExpr at hc
  rw [List.mem_append] at hc
  rcases hc with hc | hc
  · exact token_render_no_colon h₀ c hc
  · rw [List.mem_flatten] at hc
    obtain ⟨piece, hpiece, hcp⟩ := hc
    rw [List.mem_map] at hpiece
    obtain ⟨pt, hpt, rfl⟩ := hpiece
    obtain ⟨⟨-, hsp⟩, hwf⟩ := hrest pt hpt
    rw [List.mem_append] at hcp
    rcases hcp with hcp | hcp
    · exact space_ne_colon (by simpa using List.all_eq_true.mp hsp c hcp)
    · exact token_render_no_colon hwf c hcp

/-! ### Claim C2: the theorems -/

theorem Duration_parse_str (cs : List Char) :
    Duration.parse (.str cs) =
      match tryParseTimeFmt cs with
      | some v =>
        if v ≠ 0 then .ok (some (.int (v : ℤ)))
        else (sumMatches (scan cs)).map (fun s => some (.dec s))
      | Option.none => (sumMatches (scan cs)).map (fun s => some (.dec s)) := rfl

/-- C2 (amended): for every compound expression formed from well-formed
tokens — a numeral and a synonym-set unit word in either order with
optional whitespace between them — with at least one whitespace
character between consecutive tokens, `Duration.parse` succeeds and
returns the sum over the tokens of `numeral * multiplier`. -/
theorem c2_compound_sum (t₀ : Token) (rest : List (List Char × Token))
    (h₀ : t₀.wfB = true)
    (hrest : ∀ pt ∈ rest, (pt.1 ≠ [] ∧ pt.1.all isSpace = true) ∧ pt.2.wfB = true) :
    parseVal (.str (renderExpr t₀ rest)) = some (exprVal t₀ rest) := by
  have ht : tryParseTimeFmt (renderExpr t₀ rest) = Option.none :=
    tryParseTimeFmt_no_colon (renderExpr_no_colon t₀ rest h₀ hrest)
  have hscan := scan_expr t₀ rest h₀ hrest
  obtain ⟨d, hd, hdval⟩ := sumMatches_tokens (t₀ :: rest.map (·.2)) (by
    intro x hx
    rcases List.mem_cons.mp hx with rfl | hx
    · exact h₀
    · rw [List.mem_map] at hx
      obtain ⟨pt, hpt, rfl⟩ := hx
      exact (hrest pt hpt).2)
  have hscan' : scan (renderExpr t₀ rest) =
      (t₀ :: rest.map (·.2)).map (fun t => (⟨t.unit, t.num.render⟩ : RawMatch)) := by
    rw [hscan]
    simp [List.map_map]
  unfold parseVal
  rw [Duration_parse_str, ht]
  simp only []
  rw [hscan', hd]
  simp only [Except.map, numValOpt, PyNum.val, Option.some.injEq]
  rw [hdval]
  simp only [exprVal, List.map_cons, List.sum_cons, List.map_map]
  rfl

/-- C2 counterexample: without a separator between tokens the scan can
merge them.  The well-formed tokens `h1` (unit-first, value 3600) and
`30m` (value 1800) concatenated with no whitespace give `"h130m"`,
which the regex scans as the single match `h 130` — 130 hours =
468000 seconds, not 3600 + 1800 = 5400. -/
theorem c2_no_separator_counterexample :
    Token.render ⟨true, w "h", [], ⟨w "1", Option.none⟩⟩ ++
      Token.render ⟨false, w "m", [], ⟨w "30", Option.none⟩⟩ = w "h130m" ∧
    Token.wfB ⟨true, w "h", [], ⟨w "1", Option.none⟩⟩ = true ∧
    Token.wfB ⟨false, w "m", [], ⟨w "30", Option.none⟩⟩ = true ∧
    Duration.parse (.str (w "h130m")) = .ok (some (.dec ⟨468000, 0⟩)) ∧
    Token.val ⟨true, w "h", [], ⟨w "1", Option.none⟩⟩ +
      Token.val ⟨false, w "m", [], ⟨w "30", Option.none⟩⟩ = 5400 ∧
    (Dec.mk 468000 0).toRat ≠ 5400 := by
  refine ⟨by decide, by decide, by decide, by decide, ?_, ?_⟩
  · have h1 : natOfDigits (w "1") = 1 := by decide
    have h30 : natOfDigits (w "30") = 30 := by decide
    have hh : findMult (w "h") = some 3600 := by decide
    have hm : findMult (w "m") = some 60 := by decide
    simp [Token.val, Numeral.val, h1, h30, hh, hm]
    norm_num
  · simp [Dec.toRat]

theorem c2_compound_sum_witness :
    renderExpr ⟨false, w "h", [], ⟨w "1", Option.none⟩⟩
      [([' '], ⟨false, w "m", [], ⟨w "30", Option.none⟩⟩)] = w "1h 30m" ∧
    parseVal (.str (w "1h 30m")) = some 5400 := by
  have hrender : renderExpr ⟨false, w "h", [], ⟨w "1", Option.none⟩⟩
      [([' '], ⟨false, w "m", [], ⟨w "30", Option.none⟩⟩)] = w "1h 30m" := by decide
  refine ⟨hrender, ?_⟩
  have h := c2_compound_sum ⟨false, w "h", [], ⟨w "1", Option.none⟩⟩
    [([' '], ⟨false, w "m", [], ⟨w "30", Option.none⟩⟩)] (by decide) (by decide)
  rw [hrender] at h
  rw [h]
  have h1 : natOfDigits (w "1") = 1 := by decide
  have h30 : natOfDigits (w "30") = 30 := by decide
  have hh : findMult (w "h") = some 3600 := by decide
  have hm : findMult (w "m") = some 60 := by decide
  simp [exprVal, Token.val, Numeral.val, h1, h30, hh, hm]
  norm_num

end Maxify
